import Mathlib

set_option maxHeartbeats 1000000

/-!
Verification of the natural-language specification of the `wiktfinnish`
repository against a shallow embedding of `wiktfinnish/inflect.py` (and of
the paradigm codec, whose implementation is absent from the repository
snapshot and is therefore modelled from the spec and the repository's own
tests).  Python strings are modelled as `List Char`; Python dictionaries
with mixed `int`/`str` keys are modelled as ordered association lists over
`Nat ⊕ String`; fallible code (Python exceptions, assertion failures,
unbounded recursion) is modelled with `Option`.
-/

namespace Wikt

/-- Python strings are modelled as lists of characters. -/
abbrev Str := List Char

/-- The apostrophe character (written via its code point to keep the
source free of bare apostrophe literals). -/
def apoChar : Char := Char.ofNat 39

/-- `EMPTY_CHAR = ""` from inflect.py: private-use placeholder. -/
def EMPTY_CHAR : Char := Char.ofNat 0xF8FF

/-- Python `str.lower()` restricted to the characters that occur in this
program's data (ASCII plus the Finnish/loan letters Ä Ö Å É Ü). -/
def pyLower (c : Char) : Char :=
  if c = 'Ä' then 'ä'
  else if c = 'Ö' then 'ö'
  else if c = 'Å' then 'å'
  else if c = 'É' then 'é'
  else if c = 'Ü' then 'ü'
  else c.toLower

/-- Back vowels recognised by the regex `([aouAOU])[^yäöYÄÖ]*$`. -/
def isBackV (c : Char) : Bool := c ∈ (['a', 'o', 'u', 'A', 'O', 'U'] : List Char)

/-- Front vowels excluded by the regex `([aouAOU])[^yäöYÄÖ]*$`. -/
def isFrontB (c : Char) : Bool := c ∈ (['y', 'ä', 'ö', 'Y', 'Ä', 'Ö'] : List Char)

/-- Helper for `needs_aou`: scans the reversed word; the regex
`([aouAOU])[^yäöYÄÖ]*$` matches iff, scanning from the right, a back vowel
is met before any front vowel. -/
def needsAouRev : Str → Bool
  | [] => false
  | c :: r => if isBackV c then true else if isFrontB c then false else needsAouRev r

/-- `needs_aou(word)`: truthiness of `re.search("([aouAOU])[^yäöYÄÖ]*$", word)`. -/
def needs_aou (w : Str) : Bool := needsAouRev w.reverse

/-- `word_to_aae(word)`: returns `"a"` or `"ä"` based on vowel harmony. -/
def word_to_aae (w : Str) : Str := if needs_aou w then ['a'] else ['ä']

theorem needsAouRev_iff (l : Str) :
    needsAouRev l = true ↔
      ∃ l₂ c l₁, l = l₂ ++ c :: l₁ ∧ isBackV c = true ∧ ∀ d ∈ l₂, isFrontB d = false := by
  induction l with
  | nil =>
    simp only [needsAouRev]
    constructor
    · intro h; cases h
    · rintro ⟨l₂, c, l₁, heq, -, -⟩
      exact absurd heq (by simp)
  | cons x r ih =>
    simp only [needsAouRev]
    by_cases hb : isBackV x = true
    · simp only [hb, if_true, true_iff]
      exact ⟨[], x, r, rfl, hb, by simp⟩
    · have hb' : isBackV x = false := by
        cases h : isBackV x with
        | false => rfl
        | true => exact absurd h hb
      by_cases hf : isFrontB x = true
      · simp only [hb', hf, Bool.false_eq_true, if_false, if_true]
        constructor
        · intro h; cases h
        · rintro ⟨l₂, c, l₁, heq, hc, hall⟩
          cases l₂ with
          | nil =>
            simp only [List.nil_append, List.cons.injEq] at heq
            rw [← heq.1] at hc
            rw [hb'] at hc
            cases hc
          | cons d t =>
            simp only [List.cons_append, List.cons.injEq] at heq
            have hd := hall d (by simp)
            rw [← heq.1] at hd
            rw [hf] at hd
            cases hd
      · have hf' : isFrontB x = false := by
          cases h : isFrontB x with
          | false => rfl
          | true => exact absurd h hf
        simp only [hb', hf', Bool.false_eq_true, if_false]
        rw [ih]
        constructor
        · rintro ⟨l₂, c, l₁, heq, hc, hall⟩
          refine ⟨x :: l₂, c, l₁, by rw [heq, List.cons_append], hc, ?_⟩
          intro d hd
          rcases List.mem_cons.mp hd with h | h
          · rw [h]; exact hf'
          · exact hall d h
        · rintro ⟨l₂, c, l₁, heq, hc, hall⟩
          cases l₂ with
          | nil =>
            simp only [List.nil_append, List.cons.injEq] at heq
            rw [← heq.1] at hc
            rw [hb'] at hc
            cases hc
          | cons d t =>
            simp only [List.cons_append, List.cons.injEq] at heq
            exact ⟨t, c, l₁, heq.2, hc, fun e he => hall e (by simp [he])⟩

theorem needs_aou_iff (w : Str) :
    needs_aou w = true ↔
      ∃ l₁ c l₂, w = l₁ ++ c :: l₂ ∧ isBackV c = true ∧ ∀ d ∈ l₂, isFrontB d = false := by
  unfold needs_aou
  rw [needsAouRev_iff]
  constructor
  · rintro ⟨l₂, c, l₁, heq, hc, hall⟩
    refine ⟨l₁.reverse, c, l₂.reverse, ?_, hc, ?_⟩
    · have := congrArg List.reverse heq
      rw [List.reverse_reverse] at this
      rw [this]
      simp
    · intro d hd
      exact hall d (List.mem_reverse.mp hd)
  · rintro ⟨l₁, c, l₂, heq, hc, hall⟩
    refine ⟨l₂.reverse, c, l₁.reverse, ?_, hc, ?_⟩
    · rw [heq]
      simp
    · intro d hd
      exact hall d (List.mem_reverse.mp hd)

/-- C10: `word_to_aae` returns exactly `"a"` or `"ä"`; it returns `"a"` iff
the word contains a back vowel (a/o/u in either case) with no front vowel
(y/ä/ö in either case) anywhere after it, and it returns `"ä"` on the
empty string. -/
theorem c10_word_to_aae_characterization :
    ∀ w : Str,
      (word_to_aae w = ['a'] ∨ word_to_aae w = ['ä']) ∧
      (word_to_aae w = ['a'] ↔
        ∃ l₁ c l₂, w = l₁ ++ c :: l₂ ∧ isBackV c = true ∧
          ∀ d ∈ l₂, isFrontB d = false) ∧
      word_to_aae ([] : Str) = ['ä'] := by
  intro w
  refine ⟨?_, ?_, by decide⟩
  · unfold word_to_aae
    by_cases h : needs_aou w = true
    · left; simp [h]
    · right; simp [h]
  · unfold word_to_aae
    by_cases h : needs_aou w = true
    · simp only [h, if_true, true_iff]
      exact (needs_aou_iff w).mp h
    · have h' : needs_aou w = false := by
        cases hh : needs_aou w with
        | false => rfl
        | true => exact absurd hh h
      simp only [h', Bool.false_eq_true, if_false]
      constructor
      · intro hcontra
        exact absurd hcontra (by decide)
      · intro hex
        exact absurd (needs_aou_iff w |>.mpr hex) h

/-! ## Argument sets: Python dicts with mixed `int`/`str` keys -/

/-- A Python dict key in this program: an `int` or a `str`. -/
abbrev PyKey := Sum Nat String

/-- An argument set: insertion-ordered association list with unique keys. -/
abbrev Args := List (PyKey × Str)

/-- `args.get(k, None)`. -/
def argsGet? (k : PyKey) (a : Args) : Option Str :=
  (a.find? (fun p => decide (p.1 = k))).map Prod.snd

/-- `k in args`. -/
def argsHas (k : PyKey) (a : Args) : Bool := (argsGet? k a).isSome

/-- `args[k] = v`: replace in place (keeping position) or append. -/
def argsSet (k : PyKey) (v : Str) (a : Args) : Args :=
  if argsHas k a then a.map (fun p => if p.1 = k then (k, v) else p)
  else a ++ [(k, v)]

/-- `del args[k]` (no error when absent, callers guard with try/except). -/
def argsDel (k : PyKey) (a : Args) : Args :=
  a.filter (fun p => decide (¬ p.1 = k))

/-- Python truthiness of an optional string: `None` and `""` are falsy. -/
def truthy : Option Str → Option Str
  | some [] => none
  | some v => some v
  | none => none

/-- `args.get(k1) or args.get(k2) or ""`. -/
def pyOrGet2 (a : Args) (k₁ k₂ : PyKey) : Str :=
  ((truthy (argsGet? k₁ a)).orElse (fun _ => truthy (argsGet? k₂ a))).getD []

/-- Python substring test `sub in s`. -/
def pyIn (sub : Str) : Str → Bool
  | [] => sub.isEmpty
  | c :: r => sub.isPrefixOf (c :: r) || pyIn sub r

/-! ## `last_char_to_vowel` / `last_char_to_aou` -/

/-- The `(ch, prev)` table from `last_char_to_vowel`. -/
def lcvTable : List (Char × Str) :=
  [('a', "a/+£".toList),
   ('e', "eébcçdgptvwz&*:.".toList),
   ('o', "ohk€å".toList),
   ('ä', "äflmnrsx§".toList),
   ('ö', "ö".toList),
   ('i', "ij%$".toList),
   ('u', "uq,".toList),
   ('y', "yü".toList)]

/-- One iteration of the inner loop: the class containing the lowered char. -/
def lcvFind (c : Char) : Option Char :=
  (lcvTable.find? (fun p => p.2.contains (pyLower c))).map Prod.fst

/-- `last_char_to_vowel(word)`: first matching class scanning from the end,
default `"e"`. -/
def last_char_to_vowel (w : Str) : Str :=
  [(w.reverse.findSome? lcvFind).getD 'e']

/-- `last_char_to_aou(word)`. -/
def last_char_to_aou (w : Str) : Str :=
  if pyIn (last_char_to_vowel w) "aou".toList then ['a'] else ['ä']

/-! ## The pattern template interpreter `process_template` -/

/-- The interpreter state: `parts` and `delparts` are Python lists of
strings (joined for output); elements are usually single characters. -/
structure TState where
  parts : List Str
  delparts : List Str
deriving DecidableEq

/-- Vowels recognised by the `@` operator's regexes. -/
def atVowelSet : Str := "aeiouyåäöAEIOUYÅÄÖ".toList

/-- Vowel-or-`p` set accepted by the `-` operator. -/
def dropOkSet : Str := "aeiouyäöp".toList

/-- Vowel set required by the `/` operator. -/
def slashVowelSet : Str := "aeiouyäö".toList

/-- The 16 vowels used by the final placeholder-collapsing pass. -/
def vowel16 : Str := "aeiouyäöAEIOUYÄÖ".toList

/-- Digit-slot lookup: `args[int(x)] if int(x) in args else args.get(x, "")`. -/
def rawSlot (args : Args) (x : Char) : Str :=
  match argsGet? (Sum.inl (x.toNat - 48)) args with
  | some w => w
  | none => (argsGet? (Sum.inr (String.singleton x)) args).getD []

/-- The `"(')"` marker denotes an explicitly empty value. -/
def pyResolveMarker (v : Str) : Str := if v = "(')".toList then [] else v

/-- The value a digit template character resolves to. -/
def resolveSlot (args : Args) (x : Char) : Str := pyResolveMarker (rawSlot args x)

/-- One character of template processing (the body of the `for x in
template` loop of `process_template`); `none` is Python's `return None`. -/
def templStep (args : Args) (ill : Option Str) (st : TState) (x : Char) : Option TState :=
  if x.isDigit then
    let v := resolveSlot args x
    if x = '9' then
      match argsGet? (Sum.inr "par_sg_a") args with
      | some par => some ⟨st.parts ++ [par] ++ v.map (fun c => [c]), st.delparts⟩
      | none =>
        match st.delparts.getLast? with
        | none => none
        | some d => some ⟨st.parts ++ [d] ++ v.map (fun c => [c]), st.delparts⟩
    else
      let v := if x = '3' ∧ v = [] then [EMPTY_CHAR] else v
      some ⟨st.parts ++ v.map (fun c => [c]), st.delparts⟩
  else if x = '@' then
    match ill with
    | some iv => some ⟨st.parts ++ [iv], st.delparts⟩
    | none =>
      let p := (st.parts ++ st.delparts).flatten
      match p.reverse.find? (fun c => c ∈ atVowelSet) with
      | some c => some ⟨st.parts ++ [[pyLower c]], st.delparts⟩
      | none =>
        if p.any (fun c => c = 'é' ∨ c = 'É') then
          some ⟨st.parts ++ [['e']], st.delparts⟩
        else
          match p.reverse with
          | [] => none
          | lastc :: _ => some ⟨st.parts ++ [last_char_to_vowel [lastc]], st.delparts⟩
  else if x = 'A' then
    match truthy (argsGet? (Sum.inr "par_sg_a") args) with
    | some a => some ⟨st.parts ++ [a], st.delparts⟩
    | none => some ⟨st.parts ++ [word_to_aae ((st.parts ++ st.delparts).flatten)], st.delparts⟩
  else if x = 'O' then
    some ⟨st.parts ++ [if needs_aou ((st.parts ++ st.delparts).flatten) then ['o'] else ['ö']],
      st.delparts⟩
  else if x = 'U' then
    some ⟨st.parts ++ [if needs_aou ((st.parts ++ st.delparts).flatten) then ['u'] else ['y']],
      st.delparts⟩
  else if x = 'D' then
    match st.parts.flatten.reverse with
    | [] => none
    | lastc :: _ =>
      some ⟨st.parts ++ [[if lastc ∈ ("rnml".toList : Str) then lastc else 'd']], st.delparts⟩
  else if x = 'I' then
    match st.delparts.getLast? with
    | none => none
    | some e => some ⟨st.parts ++ [if e = ['i'] then ['e'] else e], st.delparts⟩
  else if x = '-' then
    match st.parts.getLast? with
    | none => none
    | some e =>
      if pyIn e dropOkSet then some ⟨st.parts.dropLast, st.delparts ++ [e]⟩ else none
  else if x = '/' then
    if st.parts.length < 2 then none
    else
      match st.parts.getLast? with
      | none => none
      | some p1 =>
        if pyIn p1 slashVowelSet then
          match st.parts.dropLast.getLast? with
          | none => none
          | some p2 =>
            if pyIn p2 slashVowelSet then
              some ⟨st.parts.dropLast.dropLast ++ [p1], st.delparts⟩
            else none
        else none
  else
    some ⟨st.parts ++ [[x]], st.delparts⟩

/-- One `re.sub` pass of the final cleanup, for one vowel `ch`:
`([16-vowel]ch)EMPTY_CHAR(ch) → \1'\2`, left to right, non-overlapping. -/
def subPass (ch : Char) : Str → Str
  | a :: b :: c :: d :: rest2 =>
    if a ∈ vowel16 ∧ b = ch ∧ c = EMPTY_CHAR ∧ d = ch then
      a :: b :: apoChar :: d :: subPass ch rest2
    else a :: subPass ch (b :: c :: d :: rest2)
  | l => l

/-- The full placeholder-collapsing pass: the 16 `re.sub` passes followed by
removal of the remaining placeholders. -/
def collapseEmpty (v : Str) : Str :=
  (vowel16.foldl (fun acc ch => subPass ch acc) v).filter (fun c => decide (¬ c = EMPTY_CHAR))

/-- The tail of `process_template`: the placeholder pass runs only when the
joined result contains `EMPTY_CHAR`. -/
def processFinal (v : Str) : Str := if EMPTY_CHAR ∈ v then collapseEmpty v else v

/-- `process_template(template, args, ill_sg_vowel)`. -/
def process_template (template : Str) (args : Args) (ill : Option Str) : Option Str :=
  (template.foldlM (templStep args ill) ⟨[], []⟩).map (fun st => processFinal st.parts.flatten)

/-! ## `add_clitic` -/

/-- Consonants that block the extra `"ks"` alternative of the `kOs` clitic. -/
def kOsBlockSet : Str := "bcdfghjklmpqrstvwxz".toList

/-- Processing of one result string `v` inside `add_clitic`'s loop.
`none` models the two ways the Python loop body can go wrong: `v[-1]`
raising `IndexError` on an empty string under `kOs`, and `None` (a failed
clitic template) being inserted into the result list. -/
def addCliticOne (clitic : Str) (acc : List Str) (v : Str) : Option (List Str) :=
  let ret := process_template ('1' :: clitic) [(Sum.inr "1", v)] none
  let acc1 : Option (List Str) :=
    if v = [] then some acc
    else match ret with
      | some r => some (acc ++ [r])
      | none => none
  match acc1 with
  | none => none
  | some acc1 =>
    if clitic = "kOs".toList then
      match v.getLast? with
      | none => none
      | some lc =>
        let acc2 :=
          if pyIn [lc] kOsBlockSet then acc1
          else
            match process_template ('1' :: 'k' :: 's' :: []) [(Sum.inr "1", v)] none with
            | some r => if r = [] then acc1 else acc1 ++ [r]
            | none => acc1
        let acc3 :=
          if lc = 't' then
            match process_template ('1' :: 'k' :: 's' :: []) [(Sum.inr "1", v.dropLast)] none with
            | some r => if r = [] then acc2 else acc2 ++ [r]
            | none => acc2
          else acc2
        some acc3
    else some acc1

/-- `add_clitic(results, clitic)`. -/
def add_clitic (results : List Str) (clitic : Str) : Option (List Str) :=
  if clitic = [] ∨ clitic = "__dummy__".toList then some results
  else results.foldlM (addCliticOne clitic) []

/-! ## Helper lemmas about the interpreter -/

theorem pyIn_singleton_iff (c : Char) (l : Str) : pyIn [c] l = true ↔ c ∈ l := by
  induction l with
  | nil => simp [pyIn, List.isEmpty]
  | cons d r ih => simp [pyIn, List.isPrefixOf, ih]

theorem flatten_mapSing (v : Str) : (v.map (fun c => [c])).flatten = v := by
  induction v with
  | nil => rfl
  | cons c r ih => simp [ih]

theorem mem_resolveMarker {c : Char} {v : Str} (h : c ∈ pyResolveMarker v) : c ∈ v := by
  unfold pyResolveMarker at h
  split at h
  · cases h
  · exact h

/-! ## Claim C6: the `-` operator -/

/-- C6: the `-` operator pops the last output element into `delparts` and
fails exactly when the output stack is empty or the removed character is
neither a (lower-case Finnish) vowel nor `p`. -/
theorem c6_drop_operator :
    ∀ (args : Args) (ill : Option Str) (ds : List Str),
      templStep args ill ⟨[], ds⟩ '-' = none ∧
      ∀ (ps : List Str) (c : Char),
        templStep args ill ⟨ps ++ [[c]], ds⟩ '-' =
          if c ∈ dropOkSet then some ⟨ps, ds ++ [[c]]⟩ else none := by
  intro args ill ds
  constructor
  · simp [templStep]
  · intro ps c
    by_cases hc : c ∈ dropOkSet
    · have hpy : pyIn [c] dropOkSet = true := (pyIn_singleton_iff c dropOkSet).mpr hc
      simp [templStep, List.getLast?_concat, List.dropLast_concat, hpy, hc]
    · have hpy : pyIn [c] dropOkSet = false := by
        cases h : pyIn [c] dropOkSet with
        | false => rfl
        | true => exact absurd ((pyIn_singleton_iff c dropOkSet).mp h) hc
      simp [templStep, List.getLast?_concat, List.dropLast_concat, hpy, hc]

/-! ## Claim C3: digit characters in `process_template` -/

/-- Slot 9 being absent from the argument set (both key forms). -/
def slot9Unset (args : Args) : Prop :=
  argsHas (Sum.inl 9) args = false ∧ argsHas (Sum.inr "9") args = false

instance (args : Args) : Decidable (slot9Unset args) :=
  decidable_of_iff (argsHas (Sum.inl 9) args = false ∧ argsHas (Sum.inr "9") args = false)
    Iff.rfl

/-- C3 as stated: a digit appends exactly the referenced slot's resolved
value, and the slot-9 delparts fallback happens only (and exactly) when
slot 9 itself is unset. -/
def ClaimC3 : Prop :=
  ∀ (args : Args) (ill : Option Str) (st : TState) (x : Char),
    x.isDigit = true →
      (¬ (x = '9' ∧ slot9Unset args) →
        templStep args ill st x =
          some ⟨st.parts ++ (resolveSlot args x).map (fun c => [c]), st.delparts⟩) ∧
      (x = '9' ∧ slot9Unset args →
        templStep args ill st x =
          match st.delparts.getLast? with
          | some d => some ⟨st.parts ++ [d], st.delparts⟩
          | none => none)

/-- C3 counterexample: with slot 9 set to `"x"` (and no `par_sg_a`), the
code still runs the delparts fallback, prepending the popped `"a"`. -/
theorem c3_counterexample : ¬ ClaimC3 := by
  intro h
  have h1 := (h [(Sum.inr "9", ['x'])] none ⟨[], [['a']]⟩ '9' (by decide)).1 (by decide)
  exact absurd h1 (by decide)

/-- C3 amended: a digit appends the resolved slot value, except that slot 9
first appends `par_sg_a` when that key is present and otherwise appends the
last `delparts` entry (failing when there is none) — regardless of slot 9's
own value, which is appended after — and an empty slot-3 value is replaced
by the private placeholder character. -/
theorem c3_amended_digit_step :
    ∀ (args : Args) (ill : Option Str) (st : TState) (x : Char),
      x.isDigit = true →
        templStep args ill st x =
          if x = '9' then
            match argsGet? (Sum.inr "par_sg_a") args with
            | some par =>
              some ⟨st.parts ++ [par] ++ (resolveSlot args x).map (fun c => [c]), st.delparts⟩
            | none =>
              match st.delparts.getLast? with
              | none => none
              | some d =>
                some ⟨st.parts ++ [d] ++ (resolveSlot args x).map (fun c => [c]), st.delparts⟩
          else if x = '3' ∧ resolveSlot args x = [] then
            some ⟨st.parts ++ [[EMPTY_CHAR]], st.delparts⟩
          else
            some ⟨st.parts ++ (resolveSlot args x).map (fun c => [c]), st.delparts⟩ := by
  intro args ill st x hx
  by_cases h9 : x = '9'
  · simp [templStep, hx, h9]
  · by_cases h3x : x = '3'
    · subst h3x
      by_cases h3v : resolveSlot args '3' = []
      · simp [templStep, hx, h9, h3v]
      · simp [templStep, hx, h9, h3v]
    · simp [templStep, hx, h9, h3x]

/-- Witness for the amended C3 at a concrete digit and argument set. -/
theorem c3_amended_digit_step_witness :
    templStep [(Sum.inl 1, ['v', 'a'])] none ⟨[], []⟩ '1' = some ⟨[['v'], ['a']], []⟩ := by
  have h := c3_amended_digit_step [(Sum.inl 1, ['v', 'a'])] none ⟨[], []⟩ '1' (by decide)
  rw [h]
  decide

/-! ## Claim C7: the `kOs` clitic -/

/-- The list of strings `add_clitic` produces from one result string `v`
under the `kOs` clitic (code behavior: the `ks` alternatives append to the
template-resolved value of `v`). -/
def kOsFormsOf (v : Str) : List Str :=
  let r := pyResolveMarker v
  [r ++ ['k', if needs_aou (r ++ ['k']) then 'o' else 'ö', 's']] ++
    match v.getLast? with
    | none => []
    | some lc =>
      (if pyIn [lc] kOsBlockSet then [] else [pyResolveMarker v ++ ['k', 's']]) ++
      (if lc = 't' then [pyResolveMarker v.dropLast ++ ['k', 's']] else [])

/-- The list of strings claim C7 predicts from one result string `v`:
literally `v + "ks"` (and `v` minus trailing `t` plus `"ks"`). -/
def claimC7FormsOf (v : Str) : List Str :=
  let r := pyResolveMarker v
  [r ++ ['k', if needs_aou (r ++ ['k']) then 'o' else 'ö', 's']] ++
    match v.getLast? with
    | none => []
    | some lc =>
      (if pyIn [lc] kOsBlockSet then [] else [v ++ ['k', 's']]) ++
      (if lc = 't' then [v.dropLast ++ ['k', 's']] else [])

/-- C7 as stated: for every non-empty `v` the `ks` alternative is exactly
`v + "ks"` (present iff the last character is outside the blocking set) and
the dropped-`t` alternative is `v[:-1] + "ks"` (present iff `v` ends in
`t`). -/
def ClaimC7 : Prop :=
  ∀ vs : List Str, (∀ v ∈ vs, v ≠ []) →
    add_clitic vs "kOs".toList = some (vs.flatMap claimC7FormsOf)

/-- C7 counterexample: the explicit-empty marker `"(')"` is resolved by the
clitic template, so its `ks` alternative is `"ks"`, not `"(')ks"`. -/
theorem c7_counterexample : ¬ ClaimC7 := by
  intro h
  exact absurd (h ["(')".toList] (by decide)) (by decide)

theorem not_mem_resolveMarker {v : Str} (hE : EMPTY_CHAR ∉ v) :
    EMPTY_CHAR ∉ pyResolveMarker v := fun h => hE (mem_resolveMarker h)

/-- Evaluation of the synthetic clitic template `"1" + "kOs"`. -/
theorem pt_1kOs (v : Str) (hE : EMPTY_CHAR ∉ v) :
    process_template ('1' :: 'k' :: 'O' :: 's' :: []) [(Sum.inr "1", v)] none =
      some (pyResolveMarker v ++
        ['k', if needs_aou (pyResolveMarker v ++ ['k']) then 'o' else 'ö', 's']) := by
  have hEr := not_mem_resolveMarker hE
  have step1 : templStep [(Sum.inr "1", v)] none ⟨[], []⟩ '1' =
      some ⟨(pyResolveMarker v).map (fun c => [c]), []⟩ := rfl
  have step2 : templStep [(Sum.inr "1", v)] none
      ⟨(pyResolveMarker v).map (fun c => [c]), []⟩ 'k' =
      some ⟨(pyResolveMarker v).map (fun c => [c]) ++ [['k']], []⟩ := rfl
  have hfl : (((pyResolveMarker v).map (fun c => [c]) ++ [['k']]) ++
      ([] : List Str)).flatten = pyResolveMarker v ++ ['k'] := by
    simp [flatten_mapSing]
  have step3 : templStep [(Sum.inr "1", v)] none
      ⟨(pyResolveMarker v).map (fun c => [c]) ++ [['k']], []⟩ 'O' =
      some ⟨((pyResolveMarker v).map (fun c => [c]) ++ [['k']]) ++
        [if needs_aou ((((pyResolveMarker v).map (fun c => [c]) ++ [['k']]) ++
          ([] : List Str)).flatten) then ['o'] else ['ö']], []⟩ := rfl
  rw [hfl] at step3
  have step4 : ∀ ps : List Str, templStep [(Sum.inr "1", v)] none ⟨ps, []⟩ 's' =
      some ⟨ps ++ [['s']], []⟩ := fun ps => rfl
  show (List.foldlM (templStep [(Sum.inr "1", v)] none) ⟨[], []⟩
      ('1' :: 'k' :: 'O' :: 's' :: [])).map (fun st => processFinal st.parts.flatten) = _
  rw [List.foldlM_cons, step1]
  show (List.foldlM (templStep [(Sum.inr "1", v)] none)
      ⟨(pyResolveMarker v).map (fun c => [c]), []⟩
      ('k' :: 'O' :: 's' :: [])).map (fun st => processFinal st.parts.flatten) = _
  rw [List.foldlM_cons, step2]
  show (List.foldlM (templStep [(Sum.inr "1", v)] none)
      ⟨(pyResolveMarker v).map (fun c => [c]) ++ [['k']], []⟩
      ('O' :: 's' :: [])).map (fun st => processFinal st.parts.flatten) = _
  rw [List.foldlM_cons, step3]
  show (List.foldlM (templStep [(Sum.inr "1", v)] none)
      ⟨((pyResolveMarker v).map (fun c => [c]) ++ [['k']]) ++
        [if needs_aou (pyResolveMarker v ++ ['k']) then ['o'] else ['ö']], []⟩
      ('s' :: [])).map (fun st => processFinal st.parts.flatten) = _
  rw [List.foldlM_cons, step4]
  show some (processFinal ((((pyResolveMarker v).map (fun c => [c]) ++ [['k']]) ++
      [if needs_aou (pyResolveMarker v ++ ['k']) then ['o'] else ['ö']] ++
      [['s']]).flatten)) = _
  by_cases hna : needs_aou (pyResolveMarker v ++ ['k']) = true
  · simp only [hna, if_true]
    have hok : ((((pyResolveMarker v).map (fun c => [c]) ++ [['k']]) ++ [['o']] ++
        [['s']]).flatten) = pyResolveMarker v ++ ['k', 'o', 's'] := by
      simp [flatten_mapSing]
    rw [hok]
    unfold processFinal
    rw [if_neg]
    intro hmem
    rcases List.mem_append.mp hmem with h | h
    · exact hEr h
    · revert h; decide
  · have hna' : needs_aou (pyResolveMarker v ++ ['k']) = false := by
      cases h : needs_aou (pyResolveMarker v ++ ['k']) with
      | false => rfl
      | true => exact absurd h hna
    simp only [hna', Bool.false_eq_true, if_false]
    have hok : ((((pyResolveMarker v).map (fun c => [c]) ++ [['k']]) ++ [['ö']] ++
        [['s']]).flatten) = pyResolveMarker v ++ ['k', 'ö', 's'] := by
      simp [flatten_mapSing]
    rw [hok]
    unfold processFinal
    rw [if_neg]
    intro hmem
    rcases List.mem_append.mp hmem with h | h
    · exact hEr h
    · revert h; decide

/-- Evaluation of the synthetic clitic template `"1" + "ks"`. -/
theorem pt_1ks (v : Str) (hE : EMPTY_CHAR ∉ v) :
    process_template ('1' :: 'k' :: 's' :: []) [(Sum.inr "1", v)] none =
      some (pyResolveMarker v ++ ['k', 's']) := by
  have hEr := not_mem_resolveMarker hE
  have step1 : templStep [(Sum.inr "1", v)] none ⟨[], []⟩ '1' =
      some ⟨(pyResolveMarker v).map (fun c => [c]), []⟩ := rfl
  have step2 : templStep [(Sum.inr "1", v)] none
      ⟨(pyResolveMarker v).map (fun c => [c]), []⟩ 'k' =
      some ⟨(pyResolveMarker v).map (fun c => [c]) ++ [['k']], []⟩ := rfl
  have step3 : ∀ ps : List Str, templStep [(Sum.inr "1", v)] none ⟨ps, []⟩ 's' =
      some ⟨ps ++ [['s']], []⟩ := fun ps => rfl
  show (List.foldlM (templStep [(Sum.inr "1", v)] none) ⟨[], []⟩
      ('1' :: 'k' :: 's' :: [])).map (fun st => processFinal st.parts.flatten) = _
  rw [List.foldlM_cons, step1]
  show (List.foldlM (templStep [(Sum.inr "1", v)] none)
      ⟨(pyResolveMarker v).map (fun c => [c]), []⟩
      ('k' :: 's' :: [])).map (fun st => processFinal st.parts.flatten) = _
  rw [List.foldlM_cons, step2]
  show (List.foldlM (templStep [(Sum.inr "1", v)] none)
      ⟨(pyResolveMarker v).map (fun c => [c]) ++ [['k']], []⟩
      ('s' :: [])).map (fun st => processFinal st.parts.flatten) = _
  rw [List.foldlM_cons, step3]
  show some (processFinal (((pyResolveMarker v).map (fun c => [c]) ++ [['k']] ++
      [['s']]).flatten)) = _
  have hok : (((pyResolveMarker v).map (fun c => [c]) ++ [['k']] ++
      [['s']]).flatten) = pyResolveMarker v ++ ['k', 's'] := by
    simp [flatten_mapSing]
  rw [hok]
  unfold processFinal
  rw [if_neg]
  intro hmem
  rcases List.mem_append.mp hmem with h | h
  · exact hEr h
  · revert h; decide

theorem c7_aux (vs : List Str) (h : ∀ v ∈ vs, v ≠ [] ∧ EMPTY_CHAR ∉ v) (acc : List Str) :
    List.foldlM (addCliticOne "kOs".toList) acc vs = some (acc ++ vs.flatMap kOsFormsOf) := by
  induction vs generalizing acc with
  | nil => simp
  | cons v rest ih =>
    have hv := h v (by simp)
    obtain ⟨lc, hlc⟩ : ∃ lc, v.getLast? = some lc := by
      cases hv1 : v.getLast? with
      | none => exact absurd (List.getLast?_eq_none_iff.mp hv1) hv.1
      | some lc => exact ⟨lc, rfl⟩
    have hvd : EMPTY_CHAR ∉ v.dropLast :=
      fun hm => hv.2 ((List.dropLast_sublist v).subset hm)
    have hone : addCliticOne "kOs".toList acc v = some (acc ++ kOsFormsOf v) := by
      have hbase := pt_1kOs v hv.2
      have hks := pt_1ks v hv.2
      have hksd := pt_1ks v.dropLast hvd
      have htl : ("kOs".toList : Str) = ['k', 'O', 's'] := rfl
      by_cases ht : lc = 't'
      · subst ht
        have hbt : pyIn ['t'] kOsBlockSet = true := by decide
        simp [addCliticOne, kOsFormsOf, htl, hbase, hks, hksd, hlc, hv.1, hbt]
      · by_cases hb : pyIn [lc] kOsBlockSet = true
        · simp [addCliticOne, kOsFormsOf, htl, hbase, hks, hksd, hlc, hv.1, hb, ht]
        · have hb' : pyIn [lc] kOsBlockSet = false := by
            cases hx : pyIn [lc] kOsBlockSet with
            | false => rfl
            | true => exact absurd hx hb
          simp [addCliticOne, kOsFormsOf, htl, hbase, hks, hksd, hlc, hv.1, hb', ht]
    rw [List.foldlM_cons, hone]
    show List.foldlM (addCliticOne "kOs".toList) (acc ++ kOsFormsOf v) rest = _
    rw [ih (fun u hu => h u (by simp [hu])) (acc ++ kOsFormsOf v)]
    simp

/-- C7 amended: the `kOs` clitic produces, per non-empty result `v` (not
containing the private placeholder), the base clitic form, plus a
`"ks"`-suffixed alternative built on the template-resolved value of `v`
(so the `"(')"` marker resolves to empty) iff `v`'s last character is
outside the blocking consonant set, plus the resolved dropped-`t`
alternative iff `v` ends in `t`; all produced forms are kept. -/
theorem c7_amended_kOs_clitic :
    ∀ vs : List Str, (∀ v ∈ vs, v ≠ [] ∧ EMPTY_CHAR ∉ v) →
      add_clitic vs "kOs".toList = some (vs.flatMap kOsFormsOf) := by
  intro vs h
  unfold add_clitic
  rw [if_neg (by decide)]
  simpa using c7_aux vs h []

/-- Witness for the amended C7 at a concrete result list. -/
theorem c7_amended_kOs_clitic_witness :
    add_clitic ["talot".toList] "kOs".toList =
      some (["talot".toList].flatMap kOsFormsOf) :=
  c7_amended_kOs_clitic ["talot".toList] (by decide)

/-! ## `add_possessive` -/

/-- Generic lookup in a string-keyed table. -/
def strLookup {α : Type} (k : String) (t : List (String × α)) : Option α :=
  (t.find? (fun p => decide (p.1 = k))).map Prod.snd

/-- The forms for which a gemination (`@`-prefixed) possessive suffix
applies. -/
def possGeminateForms : List String :=
  ["ine-sg", "ine-pl", "ela-sg", "ela-pl",
   "all-sg", "all-pl", "ade-sg", "ade-pl",
   "abl-sg", "abl-pl", "tra-sg", "tra-pl",
   "ess-sg", "ess-pl", "abe-sg", "abe-pl",
   "ptv-sg", "ptv-pl", "cmt",
   "inf1-long", "inf2", "inf3", "inf4", "inf5"]

/-- The literal-mode suffix loop: append each suffix character, with `A`
resolved by vowel harmony over the accumulated characters. -/
def possApplyLit (v suffix : Str) : Str :=
  suffix.foldl
    (fun parts x =>
      if x = 'A' then parts ++ (if needs_aou parts then ['a'] else ['ä'])
      else parts ++ [x])
    v

/-- Processing of one (suffix, result) pair inside `add_possessive`:
`none` models `suffix[0]` raising on an empty suffix; `some []` a
`continue`/empty value; `some [v]` one produced result. -/
def possPiece (form : String) (suffix : Str) (v : Str) : Option (List Str) :=
  match suffix with
  | [] => none
  | s0 :: srest =>
    if s0 ≠ '@' then
      let vv := possApplyLit v suffix
      some (if vv = [] then [] else [vv])
    else if form ∉ possGeminateForms then some []
    else if v.length < 2 then some []
    else
      match v.getLast? with
      | none => some []
      | some lastc =>
        if pyIn [lastc] slashVowelSet = false then some []
        else
          match v.dropLast.getLast? with
          | none => some []
          | some sec =>
            if sec = lastc then some []
            else
              let vv := v ++ [lastc] ++ srest
              some (if vv = [] then [] else [vv])

/-- `add_possessive(results, form, poss)`; the possessive-suffix table is
external data supplied as a parameter. -/
def add_possessive (possTable : List (String × List Str)) (results : List Str)
    (form : String) (poss : String) : Option (List Str) :=
  if poss = "" then some results
  else
    match strLookup poss possTable with
    | none => none
    | some suffixes =>
      suffixes.foldlM
        (fun acc suffix =>
          results.foldlM
            (fun acc2 v => (possPiece form suffix v).map (fun add => acc2 ++ add))
            acc)
        []

/-! ## `clean_exception` regex scanners -/

/-- Python `\s` (restricted to the ASCII whitespace the data contains). -/
def pyWs : List Char := [' ', '\t', '\n', Char.ofNat 13, Char.ofNat 12, Char.ofNat 11]

/-- `re.sub(r"\[\[[^]|]*\|([^]]*)\]\]", r"\1", v)`: fuelled left-to-right
scanner (fuel is the string length, enough as every step consumes at least
one character). -/
def subLinkF : Nat → Str → Str
  | 0, l => l
  | fuel + 1, l =>
    match l with
    | '[' :: '[' :: rest =>
      let ta := rest.takeWhile (fun c => decide (c ≠ ']' ∧ c ≠ '|'))
      (match rest.drop ta.length with
       | '|' :: rest2 =>
         let tb := rest2.takeWhile (fun c => decide (c ≠ ']'))
         (match rest2.drop tb.length with
          | ']' :: ']' :: rest4 => tb ++ subLinkF fuel rest4
          | _ => '[' :: subLinkF fuel ('[' :: rest))
       | _ => '[' :: subLinkF fuel ('[' :: rest))
    | c :: rest => c :: subLinkF fuel rest
    | [] => []

/-- `re.sub(r"\[\[", "", v)`. -/
def subOpenBk : Str → Str
  | '[' :: '[' :: rest => subOpenBk rest
  | c :: rest => c :: subOpenBk rest
  | [] => []

/-- `re.sub(r"\]\]", "", v)`. -/
def subCloseBk : Str → Str
  | ']' :: ']' :: rest => subCloseBk rest
  | c :: rest => c :: subCloseBk rest
  | [] => []

/-- `re.sub(r"``+", "", v)`: greedy removal of runs of two or more. -/
def subTicksF : Nat → Str → Str
  | 0, l => l
  | fuel + 1, l =>
    match l with
    | '`' :: '`' :: rest => subTicksF fuel (rest.dropWhile (fun c => decide (c = '`')))
    | c :: rest => c :: subTicksF fuel rest
    | [] => []

/-- `re.sub(r"''+", "", v)`. -/
def subApoF : Nat → Str → Str
  | 0, l => l
  | fuel + 1, l =>
    match l with
    | c1 :: c2 :: rest =>
      if c1 = apoChar ∧ c2 = apoChar then
        subApoF fuel (rest.dropWhile (fun c => decide (c = apoChar)))
      else c1 :: subApoF fuel (c2 :: rest)
    | c :: rest => c :: subApoF fuel rest
    | [] => []

/-- Case-insensitive literal prefix test (pattern given lower-case). -/
def ciPre (pat l : Str) : Bool := pat.isPrefixOf (l.map pyLower)

/-- Search for a case-insensitive `"</sup>"`; returns the remainder after
it. -/
def findSupCloseF : Nat → Str → Option Str
  | 0, _ => none
  | fuel + 1, l =>
    if ciPre "</sup>".toList l then some (l.drop 6)
    else
      match l with
      | [] => none
      | _ :: r => findSupCloseF fuel r

/-- `re.sub(r"(?is)<sup>.*?</sup>", "", v)`. -/
def subSupF : Nat → Str → Str
  | 0, l => l
  | fuel + 1, l =>
    if ciPre "<sup>".toList l then
      match findSupCloseF l.length (l.drop 5) with
      | some rest => subSupF fuel rest
      | none =>
        match l with
        | [] => []
        | c :: r => c :: subSupF fuel r
    else
      match l with
      | [] => []
      | c :: r => c :: subSupF fuel r

/-- `re.sub(r"<[^>]*>", "", v)`. -/
def subTagF : Nat → Str → Str
  | 0, l => l
  | fuel + 1, l =>
    match l with
    | '<' :: rest =>
      let ta := rest.takeWhile (fun c => decide (c ≠ '>'))
      (match rest.drop ta.length with
       | '>' :: r2 => subTagF fuel r2
       | _ => '<' :: subTagF fuel rest)
    | c :: rest => c :: subTagF fuel rest
    | [] => []

/-- `re.sub(r" abbr. .*", "", v)` (the dot after `abbr` is a regex
any-character; `.*` stops at a newline). -/
def subAbbrF : Nat → Str → Str
  | 0, l => l
  | fuel + 1, l =>
    match l with
    | ' ' :: 'a' :: 'b' :: 'b' :: 'r' :: x :: ' ' :: rest =>
      if x ≠ '\n' then
        subAbbrF fuel (rest.dropWhile (fun c => decide (c ≠ '\n')))
      else ' ' :: subAbbrF fuel ('a' :: 'b' :: 'b' :: 'r' :: x :: ' ' :: rest)
    | c :: rest => c :: subAbbrF fuel rest
    | [] => []

/-- `re.sub(r"\s+", " ", v)`. -/
def wsCollapseF : Nat → Str → Str
  | 0, l => l
  | fuel + 1, l =>
    match l with
    | c :: rest =>
      if c ∈ pyWs then ' ' :: wsCollapseF fuel (rest.dropWhile (fun d => decide (d ∈ pyWs)))
      else c :: wsCollapseF fuel rest
    | [] => []

/-- Python `str.strip()`. -/
def pyStrip (l : Str) : Str :=
  ((l.dropWhile (fun c => decide (c ∈ pyWs))).reverse.dropWhile
    (fun c => decide (c ∈ pyWs))).reverse

/-- `clean_exception(v)`. -/
def clean_exception (v : Str) : Str :=
  let v := subLinkF v.length v
  let v := subOpenBk v
  let v := subCloseBk v
  let v := subTicksF v.length v
  let v := subApoF v.length v
  let v := subSupF v.length v
  let v := subTagF v.length v
  let v := v.map (fun c => if c = Char.ofNat 0x2019 then apoChar else c)
  let v := subAbbrF v.length v
  let v := wsCollapseF v.length v
  pyStrip v

/-! ## `add_exception` (the exception-value pipeline of `inflect_using`) -/

/-- Approximation of Python's unicode `\w` for this program's alphabet. -/
def pyWordChar (c : Char) : Bool :=
  c.isAlphanum || c = '_' ||
    (c ∈ (['ä', 'ö', 'å', 'é', 'ü', 'Ä', 'Ö', 'Å', 'É', 'Ü'] : List Char))

/-- The personal-pronoun genitives stripped from exception values. -/
def pronWords : List Str :=
  ["minun", "sinun", "hänen", "meidän", "teidän", "heidän"].map String.toList

/-- `re.sub(r"\b(minun|sinun|hänen|meidän|teidän|heidän)\b", "", v)`:
scanner carrying the previous character for the left word boundary. -/
def subPronF : Nat → Option Char → Str → Str
  | 0, _, l => l
  | fuel + 1, prev, l =>
    let leftOk : Bool :=
      match prev with
      | none => true
      | some pc => !(pyWordChar pc)
    let m : Option Str :=
      if leftOk then
        pronWords.find? (fun w =>
          w.isPrefixOf l &&
            (match l.drop w.length with
             | [] => true
             | c :: _ => !(pyWordChar c)))
      else none
    match m with
    | some w => subPronF fuel (w.getLast?) (l.drop w.length)
    | none =>
      match l with
      | [] => []
      | c :: r => c :: subPronF fuel (some c) r

/-- `re.sub(r"\(\*\)", "", v)`. -/
def subParenStar : Str → Str
  | '(' :: '*' :: ')' :: rest => subParenStar rest
  | c :: rest => c :: subParenStar rest
  | [] => []

/-- Python `str.isdigit()` on a key string (non-empty, all digits). -/
def strAllDigit (s : String) : Bool := s.toList.all Char.isDigit && !(s.toList.isEmpty)

/-- Digit-string to number. -/
def strToNat (s : String) : Nat := s.toList.foldl (fun n c => n * 10 + (c.toNat - 48)) 0

/-- The processing of one comma-separated alternative of `add_exception`:
`none` aborts the loop (Python `return` on an empty/dash value), `some
none` skips it (`continue`), `some (some vk)` adds `vk`. -/
def excAltValue (form : String) (use_poss : Bool) (alt : Str) : Option (Option Str) :=
    let v := pyStrip alt
    let v := if v.contains ' ' then (v.splitOn ' ').getLastD [] else v
    let v :=
      if v.head? = some '(' ∧ v.getLast? = some ')' then (v.drop 1).dropLast else v
    if v = [] ∨ v = ['-'] ∨ v = [Char.ofNat 0x2013] then none
    else
      let vo : Option Str :=
        if use_poss ∧ (form = "tra-sg" ∨ form = "tra-pl") then
          if "ksi".toList.isSuffixOf v then some (v.dropLast ++ ['e']) else none
        else if use_poss ∧ (form = "inf5" ∨ form = "inf1-long" ∨ form = "cmt") then
          let l2 := v.drop (v.length - 2)
          if l2 ∈ ["an".toList, "en".toList, "in".toList, "on".toList,
              "un".toList, "yn".toList, "än".toList, "ön".toList] then
            some v.dropLast.dropLast
          else if "nsa".toList.isSuffixOf v ∨ "nsä".toList.isSuffixOf v then
            some v.dropLast.dropLast.dropLast
          else some v
        else if use_poss ∧ form ∈ ["gen-sg", "gen-pl", "ill-sg", "ill-pl",
            "ins-pl", "nom-pl"] then
          match v.getLast? with
          | some c => if c = 'n' ∨ c = 't' then some v.dropLast else some v
          | none => some v
        else some v
      some vo

/-- The per-alternative loop of `add_exception` (over the comma-separated
alternatives); a dash or empty alternative aborts the whole loop. -/
def addExcAlts (form : String) (use_poss : Bool) : List Str → List Str → List Str
  | results, [] => results
  | results, alt :: rest =>
    match excAltValue form use_poss alt with
    | none => results
    | some none => addExcAlts form use_poss results rest
    | some (some vk) =>
      addExcAlts form use_poss (if vk ∈ results then results else results ++ [vk]) rest

/-- `add_exception(v)` from `inflect_using` (mutating the enclosing
`results`, here threaded explicitly). -/
def add_exception (name form : String) (use_poss : Bool) (results : List Str)
    (v : Str) : List Str :=
  let v := if name ≠ "fi-decl-pron" then subPronF v.length none v else v
  let v := subParenStar v
  let v := clean_exception v
  if v.head? = some '/' ∨ v.getLast? = some '/' then results
  else addExcAlts form use_poss results (v.splitOn ',')

/-! ## Static data: `argument_name_map` -/

/-- `argument_name_map` from inflect.py. -/
def argument_name_map : List (String × List String) :=
  [("pres-neg", ["pres_conn", "pres_3sg_neg"]),
   ("pres-pass-neg", ["pres_pass_conn", "pres_pass_neg"]),
   ("cond-3sg-or-neg", ["cond_conn", "cond_3sg_neg"]),
   ("cond-pass-neg", ["cond_pass_conn"]),
   ("impr-2sg", ["pres_conn"]),
   ("impr-2sg-neg", ["pres_conn"]),
   ("impr-neg", ["impr_conn", "impr_3sg_neg"]),
   ("impr-pass-neg", ["impr_pass_conn"]),
   ("potn-neg", ["potn_conn", "potn_3sg_neg"]),
   ("potn-pass-neg", ["potn_pass_conn"]),
   ("inf1-long", ["inf1_longa"]),
   ("inf2", ["inf2_ines"]),
   ("inf2-pass", ["inf2_pass_ines"]),
   ("inf3", ["inf3_ines"]),
   ("inf3-pass", ["inf3_pass_inst"]),
   ("inf4", ["inf4_nomi"]),
   ("", ["nom_sg", "1s", "word"]),
   ("gen-sg", ["2s"]),
   ("ptv-sg", ["3s", "par_sg"]),
   ("acc-sg", ["4s"]),
   ("ine-sg", ["5s"]),
   ("ela-sg", ["6s"]),
   ("ill-sg", ["7s"]),
   ("ade-sg", ["8s"]),
   ("abl-sg", ["9s"]),
   ("all-sg", ["10s"]),
   ("ess-sg", ["11s"]),
   ("tra-sg", ["12s"]),
   ("ins-sg", ["13s"]),
   ("abe-sg", ["14s"]),
   ("nom-pl", ["1p"]),
   ("gen-pl", ["2p"]),
   ("ptv-pl", ["3p", "par_pl"]),
   ("acc-pl", ["4p"]),
   ("ine-pl", ["5p"]),
   ("ela-pl", ["6p"]),
   ("ill-pl", ["7p"]),
   ("ade-pl", ["8p"]),
   ("abl-pl", ["9p"]),
   ("all-pl", ["10p"]),
   ("ess-pl", ["11p"]),
   ("tra-pl", ["12p"]),
   ("ins-pl", ["13p"]),
   ("abe-pl", ["14p"]),
   ("cmt", ["15p", "com_pl"])]

/-! ## Paradigm tables (external read-only data, supplied as parameters) -/

/-- One paradigm's specification (`nounspecs`/`verbspecs` entry). A Python
single-string template value is stored as a one-element list (the
`isinstance(templates, str)` normalization). -/
structure DeclEntry where
  nargs : Option Nat
  ignoreExtra : Bool
  defaultArgs : Args
  split : Option (List (Nat × String))
  forms : List (String × List Str)
deriving DecidableEq

/-- The external static tables and form-name enumerations. -/
structure Env where
  nounDecls : List (String × DeclEntry)
  verbConjs : List (String × DeclEntry)
  declNameMap : List (String × String)
  possSuffixes : List (String × List Str)
  caseForms : List String
  verbForms : List String
  compForms : List String
  possForms : List String
  cliticForms : List String
deriving DecidableEq

/-! ## Caller-aliasing state (for the frame-effect claim): the local
variable `args` starts as an alias of the caller's dict; `args.copy()`
breaks the alias; mutations apply to the caller's dict only while
aliased. -/

structure DState where
  caller : Args
  cur : Args
  aliased : Bool
deriving DecidableEq

/-- Binding of the caller's dict to the local variable `args`. -/
def dsInit (a : Args) : DState := ⟨a, a, true⟩

/-- `args = args.copy()`. -/
def dsCopy (s : DState) : DState := ⟨s.caller, s.cur, false⟩

/-- `args[k] = v`. -/
def dsSet (k : PyKey) (v : Str) (s : DState) : DState :=
  if s.aliased then ⟨argsSet k v s.caller, argsSet k v s.cur, true⟩
  else ⟨s.caller, argsSet k v s.cur, false⟩

/-- `del args[k]` (with the `try/except KeyError` of the source). -/
def dsDel (k : PyKey) (s : DState) : DState :=
  if s.aliased then ⟨argsDel k s.caller, argsDel k s.cur, true⟩
  else ⟨s.caller, argsDel k s.cur, false⟩

/-- Slot reconciliation: the `nargs` defaulting/merging block at the top of
`inflect_using` (inflect.py lines 356-395).  `none` models the `NameError`
Python would raise when `nargs >= 19` leaves the loop variable unbound. -/
def reconcileArgs : Option Nat → Bool → DState → Option DState
  | none, _, s => some s
  | some nargs, ignoreExtra, s =>
    if nargs = 0 then some s
    else
      let args := s.cur
      if 1 < nargs ∧ argsHas (Sum.inl nargs) args = false ∧
          argsHas (Sum.inr (toString nargs)) args = false then
        some (dsSet (Sum.inl nargs)
          (word_to_aae (pyOrGet2 args (Sum.inl 1) (Sum.inr "1"))) (dsCopy s))
      else
        if 20 ≤ nargs + 1 then none
        else
          let iFound := (List.range' (nargs + 1) (20 - (nargs + 1))).find?
            (fun i => !(argsHas (Sum.inl i) args) && !(argsHas (Sum.inr (toString i)) args))
          let i := (iFound.getD 19) - 1
          if nargs < i then
            if nargs = 2 ∧ ignoreExtra = false then
              let stem := (List.range' 1 (i - 1)).foldl
                (fun acc j => acc ++ pyOrGet2 args (Sum.inl j) (Sum.inr (toString j))) []
              let aae := pyOrGet2 args (Sum.inl i) (Sum.inr (toString i))
              let stem2 := if aae ≠ ['a'] ∧ aae ≠ ['ä'] then stem ++ aae else stem
              let aae2 := if aae ≠ ['a'] ∧ aae ≠ ['ä'] then word_to_aae (stem ++ aae) else aae
              let s := dsCopy s
              let s := (List.range' 1 i).foldl
                (fun s2 j => dsDel (Sum.inr (toString j)) (dsDel (Sum.inl j) s2)) s
              let s := dsSet (Sum.inl 1) stem2 s
              some (dsSet (Sum.inl 2) aae2 s)
            else some s
          else some s

/-! ## `inflect_using` -/

/-- `form` with dashes replaced by underscores (`re.sub("-", "_", form)`). -/
def formArgOf (form : String) : String :=
  (form.toList.map (fun c => if c = '-' then '_' else c)).asString

/-- The exception-value path of `inflect_using`: the form's own exception
argument plus its numbered continuations 2-4. -/
def excPath (name form : String) (use_poss : Bool) (args : Args) (formarg : String)
    (v : Str) : List Str :=
  if v = [] then []
  else
    (List.range' 2 3).foldl
      (fun rs i =>
        match truthy (argsGet? (Sum.inr (formarg ++ toString i)) args) with
        | some vi => add_exception name form use_poss rs vi
        | none => rs)
      (add_exception name form use_poss [] v)

/-- The legacy alternate-argument-name path of `inflect_using`. -/
def altPath (name form : String) (use_poss : Bool) (args : Args)
    (alts : List String) : List Str :=
  alts.foldl
    (fun rs fa =>
      match truthy (argsGet? (Sum.inr fa) args) with
      | some vv => add_exception name form use_poss rs vv
      | none => rs)
    []

/-- One template run: keep a unique non-failing non-empty result. -/
def templRunOne (args : Args) (ill : Option Str) (t : Str) (rs : List Str) : List Str :=
  match process_template t args ill with
  | some v => if v ≠ [] ∧ v ∉ rs then rs ++ [v] else rs
  | none => rs

/-- The template loop of `inflect_using` (each template once per
illative-vowel override, keeping unique non-failures in order). -/
def templFold (args : Args) (ill1 ill2 : Option Str) (ts : List Str) : List Str :=
  ts.foldl
    (fun rs t =>
      let rs2 := templRunOne args ill1 t rs
      match ill2 with
      | some _ => templRunOne args ill2 t rs2
      | none => rs2)
    []

/-- The template-selection path of `inflect_using` (clitic-only variant,
then possessive variant, then plain; the illative-singular vowel kludge
runs each template once per override). -/
def templPath (_name : String) (decl : DeclEntry) (args : Args) (form : String)
    (use_poss use_clitic : Bool) : List Str :=
  let templates : Option (List Str) :=
    if use_clitic ∧ ¬ use_poss ∧ (strLookup (form ++ "-clitic") decl.forms).isSome then
      strLookup (form ++ "-clitic") decl.forms
    else if use_poss ∧ (strLookup (form ++ "-poss") decl.forms).isSome then
      strLookup (form ++ "-poss") decl.forms
    else strLookup form decl.forms
  match templates with
  | none => []
  | some ts =>
    if ts = [] then []
    else
      templFold args
        (if form = "ill-sg" then argsGet? (Sum.inr "ill_sg_vowel") args else none)
        (if form = "ill-sg" then argsGet? (Sum.inr "ill_sg_vowel2") args else none)
        ts

/-- The exception/template selection part of `inflect_using` (everything
after the `split` handling).  This region of the source raises nothing, so
it is total. -/
def dispatchCore (name : String) (decl : DeclEntry) (args : Args) (form : String)
    (use_poss use_clitic : Bool) : List Str :=
  let formarg := formArgOf form
  match argsGet? (Sum.inr formarg) args with
  | some v => excPath name form use_poss args formarg v
  | none =>
    let tryAlt :=
      match strLookup form argument_name_map with
      | some alts => if alts.any (fun x => argsHas (Sum.inr x) args) then some alts else none
      | none => none
    match tryAlt with
    | some alts => altPath name form use_poss args alts
    | none => templPath name decl args form use_poss use_clitic

/-- The `(start, subName, end, lastPart)` spans of a `split` declaration
(`end` is the next span's start, `100` for the last). -/
def mkSpans : List (Nat × String) → List (Nat × String × Nat × Bool)
  | [] => []
  | (s, n) :: [] => [(s, n, 100, true)]
  | (s, n) :: (s2, n2) :: rest => (s, n, s2, false) :: mkSpans ((s2, n2) :: rest)

/-- The `new_args` built for one span of a compound (`split`) paradigm. -/
def spanArgs (args : Args) (start endIdx : Nat) (lastPart : Bool) : Args :=
  args.foldl
    (fun na kv =>
      match kv.1 with
      | Sum.inl x =>
        if x < start ∨ endIdx ≤ x then na
        else argsSet (Sum.inr (toString (x - start + 1))) kv.2 na
      | Sum.inr sx =>
        if strAllDigit sx then
          let x := strToNat sx
          if x < start ∨ endIdx ≤ x then na
          else argsSet (Sum.inr (toString (x - start + 1))) kv.2 na
        else if (sx = "par_sg_a" ∨ sx = "ill_sg_vowel" ∨ sx = "ill_sg_vowel2") ∧
            ¬ lastPart then na
        else argsSet (Sum.inr sx) kv.2 na)
    []

/-- `inflect_using(decls, name, args, form, use_poss, use_clitic)`.  The
`fuel` bounds the `split` recursion (Python recurses on the stack);
`none` models non-termination or an uncaught exception. -/
def inflect_using (fuel : Nat) (env : Env) (decls : List (String × DeclEntry))
    (name : String) (args : Args) (form : String) (use_poss use_clitic : Bool) :
    Option (List Str) :=
  match fuel with
  | 0 => none
  | fuel + 1 =>
    let name := (strLookup name env.declNameMap).getD name
    match strLookup name decls with
    | none => some []
    | some decl =>
      match reconcileArgs decl.nargs decl.ignoreExtra (dsInit args) with
      | none => none
      | some ds =>
        let args := ds.cur
        let doSplit :=
          match decl.split with
          | some split =>
            if form ≠ "" ∨ argsHas (Sum.inr "word") args = false then some split else none
          | none => none
        match doSplit with
        | some split =>
          let spans := mkSpans split
          let space := (argsGet? (Sum.inr "space") args).getD [' ']
          spans.foldlM
            (fun results sp =>
              let na := spanArgs args sp.1 sp.2.2.1 sp.2.2.2
              let defargs := ((strLookup sp.2.1 decls).map (fun d => d.defaultArgs)).getD []
              let na := defargs.foldl
                (fun na2 kv => if argsHas kv.1 na2 then na2 else argsSet kv.1 kv.2 na2) na
              match inflect_using fuel env decls sp.2.1 na form
                  (sp.2.2.2 && use_poss) (sp.2.2.2 && use_clitic) with
              | none => none
              | some ret =>
                some (if results = [] then ret
                  else results.flatMap (fun x => ret.map (fun y => x ++ space ++ y))))
            []
        | none => some (dispatchCore name decl args form use_poss use_clitic)

/-- The caller's argument dict as it stands after `inflect_using` returns
(tracking the aliasing of the local `args` through the reconciliation
step, the only place `inflect_using` mutates a dict bound to it). -/
def inflect_usingCaller (env : Env) (decls : List (String × DeclEntry))
    (name : String) (args : Args) : Args :=
  let name := (strLookup name env.declNameMap).getD name
  match strLookup name decls with
  | none => args
  | some decl =>
    match reconcileArgs decl.nargs decl.ignoreExtra (dsInit args) with
    | none => args
    | some ds => ds.caller

/-! ## `inflect_nominal` -/

/-- Python `s.endswith(suf)` on form names. -/
def endsW (s suf : String) : Bool := suf.toList.isSuffixOf s.toList

/-- The body of the comparison loop of `inflect_nominal`: secondary
paradigm and intermediate stem for one intermediate result `x` (`none`
is an assertion failure; the `name` of the enclosing scope is threaded
because the loop rebinds it). -/
def compSecondary (comp : String) (nm : String) (x : Str) : Option (String × Str) :=
  if comp = "comp" then
    if "mpi".toList.isSuffixOf x then some ("fi-decl-vanhempi", x.dropLast.dropLast.dropLast)
    else none
  else if comp = "sup" then
    if "in".toList.isSuffixOf x then some ("fi-decl-sisin", x.dropLast.dropLast)
    else none
  else if comp = "hkO" then
    if "hko".toList.isSuffixOf x ∨ "hkö".toList.isSuffixOf x then some ("fi-decl-valo", x)
    else none
  else some (nm, x)

/-- One iteration of the comparison loop (also rebinds `args`). -/
def compStep (fuel : Nat) (env : Env) (comp form : String) (usePoss useClitic : Bool)
    (st : String × Args × List Str) (x : Str) : Option (String × Args × List Str) :=
  match compSecondary comp st.1 x with
  | none => none
  | some (nm2, x2) =>
    let args2 : Args := [(Sum.inr "1", x2), (Sum.inr "5", word_to_aae x2)]
    match inflect_using fuel env env.nounDecls nm2 args2 form usePoss useClitic with
    | none => none
    | some ret => some (nm2, args2, st.2.2 ++ ret)

/-- `inflect_nominal(name, args, form, comp, poss, clitic, force_n)`. -/
def inflect_nominal (fuel : Nat) (env : Env) (name : String) (args : Args)
    (form comp poss clitic : String) (force_n : Bool) : Option (List Str) :=
  if (strLookup name env.nounDecls).isNone ∧ (strLookup name env.declNameMap).isNone then
    some []
  else if form ∉ env.caseForms then none
  else if comp ∉ env.compForms then none
  else if poss ∉ env.possForms then none
  else if clitic ∉ env.cliticForms ∧ clitic ≠ "__dummy__" then none
  else
    let nVal : Option String :=
      if ¬ force_n ∧ argsHas (Sum.inr "n") args then
        some (pyStrip ((argsGet? (Sum.inr "n") args).getD [])).asString
      else none
    let plOnly : Bool :=
      match nVal with
      | some n => n = "p" ∨ n = "pl" ∨ n = "Pl" ∨ n = "plural" ∨ n = "Plural"
      | none => false
    let sgOnly : Bool :=
      match nVal with
      | some n => n = "s" ∨ n = "sg" ∨ n = "Sg" ∨ n = "singular" ∨ n = "Singular"
      | none => false
    if plOnly ∧ endsW form "-sg" then some []
    else if sgOnly ∧ endsW form "-pl" then some []
    else if ¬ force_n ∧ ((argsGet? (Sum.inr "nopl") args).getD "0".toList) ≠ "0".toList ∧
        endsW form "-pl" then some []
    else if ¬ force_n ∧ ((argsGet? (Sum.inr "nosg") args).getD "0".toList) ≠ "0".toList ∧
        endsW form "-sg" then some []
    else
      let pos := argsGet? (Sum.inr "pos") args
      let posAPN : Bool :=
        match pos with
        | some p => p = "adj".toList ∨ p = "pron".toList ∨ p = "num".toList
        | none => false
      let poss := if ¬ posAPN ∧ form = "cmt" ∧ poss = "" then "3x" else poss
      let comp := if comp ≠ "" ∧ pos ≠ some "adj".toList then "" else comp
      let middle : Option (Args × List Str) :=
        if comp = "manner" ∨ comp = "comp-manner" ∨ comp = "sup-manner" then
          match inflect_using fuel env env.nounDecls name args comp false false with
          | none => none
          | some rs => some (args, rs)
        else if comp ≠ "" then
          match inflect_using fuel env env.nounDecls name args comp false false with
          | none => none
          | some results1 =>
            match results1.foldlM
                (compStep fuel env comp form (poss ≠ "") (clitic ≠ "")) (name, args, []) with
            | none => none
            | some st => some (st.2.1, st.2.2)
        else
          match inflect_using fuel env env.nounDecls name args form (poss ≠ "") (clitic ≠ "") with
          | none => none
          | some results =>
            if form = "" ∧ argsGet? (Sum.inr "i") args = some "0".toList ∧ poss = "" then
              match results.foldlM
                  (fun acc v =>
                    if v.getLast? = some 'i' then some (acc ++ [v.dropLast]) else none) [] with
              | none => none
              | some rs => some (args, rs)
            else some (args, results)
      match middle with
      | none => none
      | some (argsAfter, results) =>
        let results :=
          if form = "" ∧ ((argsGet? (Sum.inr "e") argsAfter).getD "0".toList) = "1".toList then
            results.map (fun v => v ++ ['e'])
          else results
        match add_possessive env.possSuffixes results form poss with
        | none => none
        | some results2 => add_clitic results2 clitic.toList

/-! ## `inflect_verbal` -/

/-- Verb forms that trigger the secondary nominal derivation even without
a requested case. -/
def nominalVForms : List String :=
  ["pres-part", "pres-pass-part", "agnt-part", "nega-part", "past-part",
   "past-pass-part", "inf2", "inf2-pass", "inf3", "inf3-pass", "inf4", "jA"]

/-- The per-verb-form secondary declension arguments derived from one
intermediate result `v`.  `none` models an assertion failure (or an
impossible indexing); `some none` a diagnostic-print-and-`continue`;
`some (some (name, args))` the derived paradigm and arguments. -/
def vformSecondary (vform : String) (v : Str) : Option (Option (String × Args)) :=
  if vform = "pres-part" ∨ vform = "pres-pass-part" ∨ vform = "agnt-part" then
    if v.length < 4 then some none
    else some (some ("fi-decl-koira",
      [(Sum.inr "1", v.dropLast), (Sum.inr "2", []), (Sum.inr "3", []),
       (Sum.inr "4", word_to_aae v), (Sum.inr "pos", "adj".toList)]))
  else if vform = "past-part" then
    if v.length < 4 then some none
    else some (some ("fi-decl-kuollut",
      [(Sum.inr "1", v.dropLast.dropLast), (Sum.inr "2", word_to_aae v),
       (Sum.inr "pos", "adj".toList)]))
  else if vform = "past-pass-part" then
    if v.length < 4 then some none
    else if "ttu".toList.isSuffixOf v ∨ "tty".toList.isSuffixOf v then
      some (some ("fi-decl-valo",
        [(Sum.inr "1", v.dropLast.dropLast.dropLast), (Sum.inr "2", "tt".toList),
         (Sum.inr "3", "t".toList),
         (Sum.inr "4", if needs_aou v then ['u'] else ['y']),
         (Sum.inr "5", word_to_aae v), (Sum.inr "pos", "adj".toList)]))
    else
      match (v.drop (v.length - 3)).head? with
      | none => none
      | some c3 =>
        let weak := if c3 ∈ ("rnml".toList : Str) then c3 else 'd'
        some (some ("fi-decl-valo",
          [(Sum.inr "1", v.dropLast.dropLast), (Sum.inr "2", "t".toList),
           (Sum.inr "3", [weak]),
           (Sum.inr "4", if needs_aou v then ['u'] else ['y']),
           (Sum.inr "5", word_to_aae v), (Sum.inr "pos", "adj".toList)]))
  else if vform = "inf2" ∨ vform = "inf2-pass" then
    if v.length < 5 then some none
    else if v.drop (v.length - 4) = "essa".toList ∨ v.drop (v.length - 4) = "essä".toList then
      match v.getLast? with
      | none => none
      | some lastc =>
        some (some ("fi-decl-inf2",
          [(Sum.inr "1", v.dropLast.dropLast.dropLast), (Sum.inr "2", [lastc])]))
    else none
  else if vform = "agnt-part" then
    if v.length < 3 then some none
    else if v.drop (v.length - 2) = "ma".toList ∨ v.drop (v.length - 2) = "mä".toList then
      match v.getLast? with
      | none => none
      | some lastc => some (some ("fi-decl-koira", [(Sum.inr "1", v), (Sum.inr "2", [lastc])]))
    else none
  else if vform = "inf3" then
    if v.length < 6 then some none
    else if v.drop (v.length - 5) = "massa".toList ∨ v.drop (v.length - 5) = "mässä".toList then
      match v.getLast? with
      | none => none
      | some lastc =>
        some (some ("fi-decl-inf3",
          [(Sum.inr "1", v.dropLast.dropLast.dropLast), (Sum.inr "2", [lastc])]))
    else none
  else if vform = "inf3-pass" then
    if v.length < 4 then some none
    else if v.drop (v.length - 3) = "man".toList ∨ v.drop (v.length - 3) = "män".toList then
      match v.getLast? with
      | none => none
      | some lastc =>
        some (some ("fi-decl-inf3", [(Sum.inr "1", v.dropLast), (Sum.inr "2", [lastc])]))
    else none
  else if vform = "inf4" then
    if v.length < 4 then some none
    else if "nen".toList.isSuffixOf v then
      some (some ("fi-decl-nainen",
        [(Sum.inr "1", v.dropLast.dropLast.dropLast), (Sum.inr "2", word_to_aae v)]))
    else none
  else if vform = "jA" then
    if v.length < 4 then some none
    else if "ja".toList.isSuffixOf v ∨ "jä".toList.isSuffixOf v then
      match v.getLast? with
      | none => none
      | some lastc =>
        some (some ("fi-decl-kulkija", [(Sum.inr "1", v.dropLast), (Sum.inr "2", [lastc])]))
    else none
  else if vform = "nega-part" then
    some (some ("fi-decl-onneton",
      [(Sum.inr "1", v.dropLast.dropLast.dropLast), (Sum.inr "2", word_to_aae v),
       (Sum.inr "pos", "adj".toList)]))
  else none

/-- The effective verb form used by `inflect_verbal` (the empty form
defaults to the first infinitive). -/
def effVForm (vform : String) : String := if vform = "" then "inf1" else vform

/-- The aliasing state after `inflect_verbal`'s `fi-conj-kumajaa`
slot-2 default. -/
def kumajaaDState (name : String) (args : Args) : DState :=
  if name = "fi-conj-kumajaa" ∧ argsHas (Sum.inr "2") args = false ∧
      argsHas (Sum.inl 2) args = false then
    dsSet (Sum.inl 2) ['a'] (dsCopy (dsInit args))
  else dsInit args

/-- `inflect_verbal(name, args, vform, comp, case, poss, clitic)`. -/
def inflect_verbal (fuel : Nat) (env : Env) (name : String) (args : Args)
    (vform comp case poss clitic : String) : Option (List Str) :=
  if (strLookup name env.verbConjs).isNone then some []
  else if vform ∉ env.verbForms then none
  else if poss ∉ env.possForms then none
  else if comp ∉ env.compForms then none
  else if clitic ∉ env.cliticForms ∧ clitic ≠ "__dummy__" then none
  else
    let vform := effVForm vform
    let poss := if poss = "" ∧ (vform = "inf1-long" ∨ vform = "inf5") then "3x" else poss
    let args := (kumajaaDState name args).cur
    match inflect_using fuel env env.verbConjs name args vform
        (case ≠ "" ∨ poss ≠ "") (clitic ≠ "") with
    | none => none
    | some results =>
      if case ≠ "" ∨ vform ∈ nominalVForms then
        results.foldlM
          (fun acc v =>
            match vformSecondary vform v with
            | none => none
            | some none => some acc
            | some (some (nm, args2)) =>
              match inflect_nominal fuel env nm args2 case comp poss clitic false with
              | none => none
              | some ret => some (acc ++ ret))
          []
      else
        match add_possessive env.possSuffixes results vform poss with
        | none => none
        | some rs => add_clitic rs clitic.toList

/-! ## `inflect` -/

/-- `CONJ_DECL_NAMES`. -/
def conjDeclNames (env : Env) : List String :=
  env.declNameMap.map Prod.fst ++ env.nounDecls.map Prod.fst ++ env.verbConjs.map Prod.fst

/-- `inflect(args, (vform, comp, case, poss, clitic), force_n)`. -/
def inflect (fuel : Nat) (env : Env) (args : Args)
    (form : String × String × String × String × String) (force_n : Bool) :
    Option (List Str) :=
  match argsGet? (Sum.inr "template_name") args with
  | none => none
  | some nameStr =>
    let name := nameStr.asString
    if name ∉ conjDeclNames env then some []
    else
      match form with
      | (vform, comp, case, poss, clitic) =>
        if vform ∉ env.verbForms then none
        else if comp ∉ env.compForms then none
        else if case ∉ env.caseForms then none
        else if poss ∉ env.possForms then none
        else if clitic ∉ env.cliticForms ∧ clitic ≠ "__dummy__" then none
        else if vform ≠ "" then
          inflect_verbal fuel env name args vform comp case poss clitic
        else inflect_nominal fuel env name args case comp poss clitic force_n

/-! ## The paradigm codec (modelled: implementation absent from src/) -/

/-- Trailing empty word-specific slots are omitted from the stem. -/
def dropTrailingEmpties (l : List Str) : List Str :=
  (l.reverse.dropWhile (fun s => decide (s = []))).reverse

/-- Modelled from the spec: `encode_paradigm(args)` — the paradigm codec's
encode operation, whose implementation module is absent from src/ (only
`tests/test_stem.py` exercises it).  Modelled from spec §4.6 ("class
marker + canonical paradigm name + single-letter codes for each non-stem
slot differing from the paradigm's declared default; stem = the
word-specific slots in increasing order, `|`-joined, trailing empties
omitted") and, where the spec's concrete example contradicts the
repository's own test `test_enc1`, from the test: for `fi-decl-valo` the
gradation slots 2/3 are the grammar slots (encoded `G<strong>-<weak>`
when non-default), the word-specific slots are 1, 4, 5, and with empty
gradation the stem vowel of slot 4 is folded into slot 1.  Restricted to
the `fi-decl-valo` paradigm that claim C1 exercises. -/
def encode_paradigm (args : Args) : Option (Str × String) :=
  match argsGet? (Sum.inr "template_name") args with
  | none => none
  | some tn =>
    if tn = "fi-decl-valo".toList then
      let s1 := (argsGet? (Sum.inr "1") args).getD []
      let s2 := (argsGet? (Sum.inr "2") args).getD []
      let s3 := (argsGet? (Sum.inr "3") args).getD []
      let s4 := (argsGet? (Sum.inr "4") args).getD []
      let s5 := (argsGet? (Sum.inr "5") args).getD []
      let code :=
        if s2 = [] ∧ s3 = [] then "Nvalo"
        else "Nvalo" ++ "G" ++ s2.asString ++ "-" ++ s3.asString
      let wordSlots :=
        if s2 = [] ∧ s3 = [] then [s1 ++ s4, [], s5] else [s1, s4, s5]
      some (List.intercalate ['|'] (dropTrailingEmpties wordSlots), code)
    else none

/-- Modelled from the spec: `decode_paradigm(stem, code)` — the inverse
codec operation (same missing module): split the class marker and the
paradigm name from the code, the gradation slots from its `G` suffix, and
the stem on `|` into the word-specific slots in order.  Restricted to the
`fi-decl-valo` paradigm that claim C1 exercises. -/
def decode_paradigm (stem : Str) (code : String) : Option Args :=
  match code.toList with
  | 'N' :: rest =>
    let base := rest.takeWhile (fun c => decide (c ≠ 'G'))
    let name := "fi-decl-" ++ base.asString
    if name = "fi-decl-valo" then
      let gradPart := rest.drop base.length
      let g2 :=
        match gradPart with
        | 'G' :: gr => gr.takeWhile (fun c => decide (c ≠ '-'))
        | _ => []
      let g3 :=
        match gradPart with
        | 'G' :: gr => (gr.drop ((gr.takeWhile (fun c => decide (c ≠ '-'))).length)).drop 1
        | _ => []
      let parts := stem.splitOn '|'
      some [(Sum.inr "template_name", name.toList),
            (Sum.inr "1", parts.getD 0 []),
            (Sum.inr "2", g2),
            (Sum.inr "3", g3),
            (Sum.inr "4", parts.getD 1 []),
            (Sum.inr "5", parts.getD 2 [])]
    else none
  | _ => none

/-- The argument set of claim C1 (and of the repository test `test_enc1`). -/
def c1Args : Args :=
  [(Sum.inr "template_name", "fi-decl-valo".toList),
   (Sum.inr "1", "val".toList),
   (Sum.inr "2", []),
   (Sum.inr "3", []),
   (Sum.inr "4", "o".toList),
   (Sum.inr "5", "a".toList)]

/-- C1 as stated: encoding yields stem `"val"`, code `"NvaloG-Ho"`, and
decoding that pair reproduces all five slot values exactly. -/
def ClaimC1 : Prop :=
  encode_paradigm c1Args = some ("val".toList, "NvaloG-Ho") ∧
  (decode_paradigm "val".toList "NvaloG-Ho").isSome = true ∧
  (let a := (decode_paradigm "val".toList "NvaloG-Ho").getD []
   argsGet? (Sum.inr "1") a = some "val".toList ∧
   argsGet? (Sum.inr "2") a = some [] ∧
   argsGet? (Sum.inr "3") a = some [] ∧
   argsGet? (Sum.inr "4") a = some "o".toList ∧
   argsGet? (Sum.inr "5") a = some "a".toList)

/-- C1 counterexample: the codec (per the repository's own test
`test_enc1`) encodes these arguments to stem `"valo||a"` and code
`"Nvalo"`, not to stem `"val"` and code `"NvaloG-Ho"`. -/
theorem c1_counterexample : ¬ ClaimC1 := by
  intro h
  exact absurd h.1 (by decide)

/-- C1 amended (matching `test_enc1`): encoding yields stem `"valo||a"`
and code `"Nvalo"`; decoding reproduces `template_name` and slot 5
exactly, while slot 1 comes back with slot 4's vowel folded in
(`"valo"`) and slots 2-4 come back empty — not all five slots exactly. -/
theorem c1_amended_codec_roundtrip :
    encode_paradigm c1Args = some ("valo||a".toList, "Nvalo") ∧
    (decode_paradigm "valo||a".toList "Nvalo").isSome = true ∧
    (let a := (decode_paradigm "valo||a".toList "Nvalo").getD []
     argsGet? (Sum.inr "template_name") a = some "fi-decl-valo".toList ∧
     argsGet? (Sum.inr "1") a = some "valo".toList ∧
     argsGet? (Sum.inr "2") a = some [] ∧
     argsGet? (Sum.inr "3") a = some [] ∧
     argsGet? (Sum.inr "4") a = some [] ∧
     argsGet? (Sum.inr "5") a = some "a".toList) := by
  refine ⟨by decide, by decide, by decide⟩

/-- Corroboration of the codec model against the repository test
`test_enc2` (gradation `mp`/`mm` is encoded in the code, the stem keeps
the three word-specific slots separate). -/
theorem encode_paradigm_matches_test_enc2 :
    encode_paradigm
      [(Sum.inr "template_name", "fi-decl-valo".toList),
       (Sum.inr "1", "lä".toList), (Sum.inr "2", "mp".toList),
       (Sum.inr "3", "mm".toList), (Sum.inr "4", "ö".toList),
       (Sum.inr "5", "ä".toList)] =
      some ("lä|ö|ä".toList, "NvaloGmp-mm") := by decide

/-! ## Claim C2: the missing-final-slot default -/

/-- The concatenation of the values of slots `1 .. n` (each resolved the
way the source resolves positional slots). -/
def concatSlots (args : Args) (n : Nat) : Str :=
  (List.range' 1 n).foldl
    (fun acc j => acc ++ pyOrGet2 args (Sum.inl j) (Sum.inr (toString j))) []

/-- C2 as stated: the synthesized final slot equals the harmony of the
concatenation of slots 1 through nargs-1. -/
def ClaimC2 : Prop :=
  ∀ (nargs : Nat) (ie : Bool) (args : Args), 1 < nargs →
    argsHas (Sum.inl nargs) args = false →
    argsHas (Sum.inr (toString nargs)) args = false →
    ∀ ds, reconcileArgs (some nargs) ie (dsInit args) = some ds →
      argsGet? (Sum.inl nargs) ds.cur =
        some (word_to_aae (concatSlots args (nargs - 1)))

/-- C2 counterexample: slots `1="pält"`, `4="o"`, `nargs=5`: the code
synthesizes harmony from slot 1 alone (`"ä"`), while the concatenation
`"pälto"` has harmony `"a"`. -/
theorem c2_counterexample : ¬ ClaimC2 := by
  intro h
  have h2 := h 5 false [(Sum.inr "1", "pält".toList), (Sum.inr "4", "o".toList)]
    (by decide) (by decide) (by decide)
    ⟨[(Sum.inr "1", "pält".toList), (Sum.inr "4", "o".toList)],
     [(Sum.inr "1", "pält".toList), (Sum.inr "4", "o".toList)] ++ [(Sum.inl 5, ['ä'])],
     false⟩ (by decide)
  exact absurd h2 (by decide)

theorem argsGet_map_set (k : PyKey) (v : Str) (a : Args) (h : argsHas k a = true) :
    argsGet? k (a.map (fun p => if p.1 = k then (k, v) else p)) = some v := by
  induction a with
  | nil => simp [argsHas, argsGet?, List.find?] at h
  | cons p t ih =>
    by_cases hk : p.1 = k
    · simp [argsGet?, List.find?, hk]
    · have h' : argsHas k t = true := by
        simpa [argsHas, argsGet?, List.find?, hk] using h
      simpa [argsGet?, List.find?, hk] using ih h'

theorem argsGet_append_new (k : PyKey) (v : Str) (a : Args) :
    argsHas k a = false → argsGet? k (a ++ [(k, v)]) = some v := by
  induction a with
  | nil => intro _; simp [argsGet?, List.find?]
  | cons p t ih =>
    intro h
    by_cases hk : p.1 = k
    · simp [argsHas, argsGet?, List.find?, hk] at h
    · have h' : argsHas k t = false := by
        simpa [argsHas, argsGet?, List.find?, hk] using h
      simpa [argsGet?, List.find?, hk] using ih h'

theorem argsGet_set_self (k : PyKey) (v : Str) (a : Args) :
    argsGet? k (argsSet k v a) = some v := by
  unfold argsSet
  by_cases hh : argsHas k a = true
  · rw [if_pos hh]
    exact argsGet_map_set k v a hh
  · have hh' : argsHas k a = false := by
      cases hx : argsHas k a with
      | false => rfl
      | true => exact absurd hx hh
    rw [if_neg (by rw [hh']; exact Bool.false_ne_true)]
    exact argsGet_append_new k v a hh'

/-- C2 amended: when a paradigm with `nargs > 1` finds its final declared
slot absent, it copies the argument set and synthesizes the final slot
from the vowel harmony of slot 1's value alone (`args.get(1) or
args.get("1") or ""`), not of the concatenation of slots 1..nargs-1. -/
theorem c2_amended_final_slot_default :
    ∀ (nargs : Nat) (ie : Bool) (args : Args), 1 < nargs →
      argsHas (Sum.inl nargs) args = false →
      argsHas (Sum.inr (toString nargs)) args = false →
      reconcileArgs (some nargs) ie (dsInit args) =
        some (dsSet (Sum.inl nargs)
          (word_to_aae (pyOrGet2 args (Sum.inl 1) (Sum.inr "1"))) (dsCopy (dsInit args))) ∧
      ∀ ds, reconcileArgs (some nargs) ie (dsInit args) = some ds →
        argsGet? (Sum.inl nargs) ds.cur =
          some (word_to_aae (pyOrGet2 args (Sum.inl 1) (Sum.inr "1"))) := by
  intro nargs ie args h1 h2 h3
  have h0 : ¬ (nargs = 0) := by omega
  have h2x : argsHas (Sum.inl nargs) (dsInit args).cur = false := h2
  have h3x : argsHas (Sum.inr (toString nargs)) (dsInit args).cur = false := h3
  have heq : reconcileArgs (some nargs) ie (dsInit args) =
      some (dsSet (Sum.inl nargs)
        (word_to_aae (pyOrGet2 args (Sum.inl 1) (Sum.inr "1"))) (dsCopy (dsInit args))) := by
    simp only [reconcileArgs]
    rw [if_neg h0, if_pos ⟨h1, h2x, h3x⟩]
    rfl
  refine ⟨heq, ?_⟩
  intro ds hds
  rw [heq] at hds
  cases hds
  show argsGet? (Sum.inl nargs)
    (dsSet (Sum.inl nargs) _ (dsCopy (dsInit args))).cur = _
  unfold dsSet dsCopy dsInit
  simp only [if_neg (by exact Bool.false_ne_true)]
  exact argsGet_set_self _ _ _

/-- Witness for the amended C2 at the concrete counterexample input. -/
theorem c2_amended_final_slot_default_witness :
    reconcileArgs (some 5) false
        (dsInit [(Sum.inr "1", "pält".toList), (Sum.inr "4", "o".toList)]) =
      some (dsSet (Sum.inl 5)
        (word_to_aae (pyOrGet2 [(Sum.inr "1", "pält".toList), (Sum.inr "4", "o".toList)]
          (Sum.inl 1) (Sum.inr "1")))
        (dsCopy (dsInit [(Sum.inr "1", "pält".toList), (Sum.inr "4", "o".toList)]))) ∧
    ∀ ds, reconcileArgs (some 5) false
        (dsInit [(Sum.inr "1", "pält".toList), (Sum.inr "4", "o".toList)]) = some ds →
      argsGet? (Sum.inl 5) ds.cur =
        some (word_to_aae (pyOrGet2 [(Sum.inr "1", "pält".toList), (Sum.inr "4", "o".toList)]
          (Sum.inl 1) (Sum.inr "1"))) :=
  c2_amended_final_slot_default 5 false
    [(Sum.inr "1", "pält".toList), (Sum.inr "4", "o".toList)]
    (by decide) (by decide) (by decide)

/-! ## Claim C8: the caller's argument mapping is never mutated -/

theorem dsDel_foldl_caller (l : List Nat) :
    ∀ s : DState, s.aliased = false →
      ((l.foldl (fun s2 j => dsDel (Sum.inr (toString j)) (dsDel (Sum.inl j) s2)) s).caller
          = s.caller ∧
        (l.foldl (fun s2 j => dsDel (Sum.inr (toString j)) (dsDel (Sum.inl j) s2)) s).aliased
          = false) := by
  induction l with
  | nil => intro s hs; exact ⟨rfl, hs⟩
  | cons j t ih =>
    intro s hs
    have hstep : (dsDel (Sum.inr (toString j)) (dsDel (Sum.inl j) s)).caller = s.caller ∧
        (dsDel (Sum.inr (toString j)) (dsDel (Sum.inl j) s)).aliased = false := by
      unfold dsDel
      simp [hs]
    have := ih (dsDel (Sum.inr (toString j)) (dsDel (Sum.inl j) s)) hstep.2
    simp only [List.foldl_cons]
    exact ⟨by rw [this.1, hstep.1], this.2⟩

theorem dsSet_unaliased (k : PyKey) (v : Str) (s : DState) (h : s.aliased = false) :
    (dsSet k v s).caller = s.caller ∧ (dsSet k v s).aliased = false := by
  unfold dsSet
  rw [if_neg (by rw [h]; exact Bool.false_ne_true)]
  exact ⟨rfl, rfl⟩

theorem caller_chain (k1 k2 : PyKey) (v1 v2 : Str) (l : List Nat) (args : Args) :
    (dsSet k2 v2 (dsSet k1 v1
      (l.foldl (fun s2 j => dsDel (Sum.inr (toString j)) (dsDel (Sum.inl j) s2))
        (dsCopy (dsInit args))))).caller = args := by
  obtain ⟨hc1, ha1⟩ := dsDel_foldl_caller l (dsCopy (dsInit args)) rfl
  obtain ⟨hc2, ha2⟩ := dsSet_unaliased k1 v1 _ ha1
  obtain ⟨hc3, -⟩ := dsSet_unaliased k2 v2 _ ha2
  rw [hc3, hc2, hc1]
  rfl

theorem reconcile_preserves_caller :
    ∀ (nargsO : Option Nat) (ie : Bool) (args : Args) (ds : DState),
      reconcileArgs nargsO ie (dsInit args) = some ds → ds.caller = args := by
  intro nargsO ie args ds h
  match nargsO with
  | none =>
    simp only [reconcileArgs] at h
    cases h
    rfl
  | some nargs =>
    simp only [reconcileArgs] at h
    by_cases h0 : nargs = 0
    · rw [if_pos h0] at h
      cases h
      rfl
    · rw [if_neg h0] at h
      by_cases hc : 1 < nargs ∧ argsHas (Sum.inl nargs) (dsInit args).cur = false ∧
          argsHas (Sum.inr (toString nargs)) (dsInit args).cur = false
      · rw [if_pos hc] at h
        cases h
        exact (dsSet_unaliased _ _ (dsCopy (dsInit args)) rfl).1
      · rw [if_neg hc] at h
        by_cases h20 : 20 ≤ nargs + 1
        · rw [if_pos h20] at h
          cases h
        · rw [if_neg h20] at h
          by_cases hi : nargs <
              (((List.range' (nargs + 1) (20 - (nargs + 1))).find?
                (fun i => !(argsHas (Sum.inl i) (dsInit args).cur) &&
                  !(argsHas (Sum.inr (toString i)) (dsInit args).cur))).getD 19) - 1
          · rw [if_pos hi] at h
            by_cases hm : nargs = 2 ∧ ie = false
            · rw [if_pos hm] at h
              cases h
              exact caller_chain _ _ _ _ _ _
            · rw [if_neg hm] at h
              cases h
              rfl
          · rw [if_neg hi] at h
            cases h
            rfl

/-- C8: the caller's argument mapping holds the same pairs after each
call: the reconciliation step of `inflect_using` (missing-final-slot
default and extra-slot merge), `inflect_using` itself, and
`inflect_verbal`'s per-paradigm slot-2 default all operate on a copy. -/
theorem c8_no_caller_mutation :
    (∀ (nargsO : Option Nat) (ie : Bool) (args : Args) (ds : DState),
      reconcileArgs nargsO ie (dsInit args) = some ds → ds.caller = args) ∧
    (∀ (env : Env) (decls : List (String × DeclEntry)) (name : String) (args : Args),
      inflect_usingCaller env decls name args = args) ∧
    (∀ (name : String) (args : Args), (kumajaaDState name args).caller = args) := by
  refine ⟨reconcile_preserves_caller, ?_, ?_⟩
  · intro env decls name args
    simp only [inflect_usingCaller]
    cases hd : strLookup ((strLookup name env.declNameMap).getD name) decls with
    | none => rfl
    | some decl =>
      show (match reconcileArgs decl.nargs decl.ignoreExtra (dsInit args) with
            | none => args
            | some ds => ds.caller) = args
      cases hr : reconcileArgs decl.nargs decl.ignoreExtra (dsInit args) with
      | none => rfl
      | some ds => exact reconcile_preserves_caller decl.nargs decl.ignoreExtra args ds hr
  · intro name args
    unfold kumajaaDState
    by_cases hc : name = "fi-conj-kumajaa" ∧ argsHas (Sum.inr "2") args = false ∧
        argsHas (Sum.inl 2) args = false
    · rw [if_pos hc]
      unfold dsSet dsCopy dsInit
      simp
    · rw [if_neg hc]
      rfl

/-- Witness for C8 at a concrete reconciliation (the slot-5 default firing
on a copy) and a concrete `inflect_verbal` default. -/
theorem c8_no_caller_mutation_witness :
    (⟨[(Sum.inr "1", "pält".toList), (Sum.inr "4", "o".toList)],
      [(Sum.inr "1", "pält".toList), (Sum.inr "4", "o".toList)] ++ [(Sum.inl 5, ['ä'])],
      false⟩ : DState).caller =
      [(Sum.inr "1", "pält".toList), (Sum.inr "4", "o".toList)] :=
  c8_no_caller_mutation.1 (some 5) false
    [(Sum.inr "1", "pält".toList), (Sum.inr "4", "o".toList)]
    ⟨[(Sum.inr "1", "pält".toList), (Sum.inr "4", "o".toList)],
     [(Sum.inr "1", "pält".toList), (Sum.inr "4", "o".toList)] ++ [(Sum.inl 5, ['ä'])],
     false⟩ (by decide)

/-! ## Claim C4: duplicate-freeness of result sets -/

theorem nodup_snoc {l : List Str} {a : Str} (h : l.Nodup) (ha : a ∉ l) :
    (l ++ [a]).Nodup := by
  rw [List.nodup_append]
  refine ⟨h, List.nodup_singleton a, ?_⟩
  intro x hx hxa
  rw [List.mem_singleton.mp hxa] at hx
  exact ha hx

theorem addExcAlts_nodup (form : String) (up : Bool) :
    ∀ (alts : List Str) (results : List Str), results.Nodup →
      (addExcAlts form up results alts).Nodup := by
  intro alts
  induction alts with
  | nil => intro results h; simpa [addExcAlts] using h
  | cons alt rest ih =>
    intro results h
    rw [addExcAlts]
    generalize excAltValue form up alt = r
    cases r with
    | none => exact h
    | some vo =>
      cases vo with
      | none => exact ih _ h
      | some vk =>
        apply ih
        split
        · exact h
        · rename_i hnm
          exact nodup_snoc h hnm

theorem add_exception_nodup (name form : String) (up : Bool) (results : List Str)
    (v : Str) (h : results.Nodup) : (add_exception name form up results v).Nodup := by
  simp only [add_exception]
  generalize clean_exception (subParenStar
    (if name ≠ "fi-decl-pron" then subPronF v.length none v else v)) = w
  split
  · exact h
  · exact addExcAlts_nodup form up _ results h

theorem foldl_nodup {β : Type} (f : List Str → β → List Str)
    (hf : ∀ rs b, rs.Nodup → (f rs b).Nodup) :
    ∀ (l : List β) (rs : List Str), rs.Nodup → (l.foldl f rs).Nodup := by
  intro l
  induction l with
  | nil => intro rs h; simpa using h
  | cons b t ih =>
    intro rs h
    simp only [List.foldl_cons]
    exact ih _ (hf rs b h)

theorem excPath_nodup (name form : String) (up : Bool) (args : Args)
    (formarg : String) (v : Str) : (excPath name form up args formarg v).Nodup := by
  unfold excPath
  split
  · exact List.nodup_nil
  · apply foldl_nodup
    · intro rs b h
      split
      · exact add_exception_nodup _ _ _ _ _ h
      · exact h
    · exact add_exception_nodup _ _ _ _ _ List.nodup_nil

theorem altPath_nodup (name form : String) (up : Bool) (args : Args)
    (alts : List String) : (altPath name form up args alts).Nodup := by
  unfold altPath
  apply foldl_nodup
  · intro rs b h
    split
    · exact add_exception_nodup _ _ _ _ _ h
    · exact h
  · exact List.nodup_nil

theorem templRunOne_nodup (args : Args) (ill : Option Str) (t : Str)
    (rs : List Str) (h : rs.Nodup) : (templRunOne args ill t rs).Nodup := by
  unfold templRunOne
  split
  · split
    · rename_i hcond
      exact nodup_snoc h hcond.2
    · exact h
  · exact h

theorem templFold_nodup (args : Args) (ill1 ill2 : Option Str) (ts : List Str) :
    (templFold args ill1 ill2 ts).Nodup := by
  unfold templFold
  apply foldl_nodup
  · intro rs t h
    cases ill2 with
    | none => exact templRunOne_nodup args ill1 t rs h
    | some iv =>
      exact templRunOne_nodup args (some iv) t _ (templRunOne_nodup args ill1 t rs h)
  · exact List.nodup_nil

theorem optTempl_nodup (E : Option (List Str)) (args : Args) (i1 i2 : Option Str) :
    (match E with
      | none => []
      | some ts => if ts = [] then [] else templFold args i1 i2 ts).Nodup := by
  cases E with
  | none => exact List.nodup_nil
  | some ts =>
    show (if ts = [] then [] else templFold args i1 i2 ts).Nodup
    by_cases hts : ts = []
    · rw [if_pos hts]; exact List.nodup_nil
    · rw [if_neg hts]; exact templFold_nodup args i1 i2 ts

theorem templPath_nodup (name : String) (decl : DeclEntry) (args : Args)
    (form : String) (up uc : Bool) : (templPath name decl args form up uc).Nodup := by
  unfold templPath
  split
  · exact optTempl_nodup _ _ _ _
  · split
    · exact optTempl_nodup _ _ _ _
    · exact optTempl_nodup _ _ _ _

theorem dispatchCore_nodup (name : String) (decl : DeclEntry) (args : Args)
    (form : String) (up uc : Bool) : (dispatchCore name decl args form up uc).Nodup := by
  simp only [dispatchCore]
  cases hx : argsGet? (Sum.inr (formArgOf form)) args with
  | some v => exact excPath_nodup _ _ _ _ _ _
  | none =>
    cases hy : strLookup form argument_name_map with
    | none => exact templPath_nodup _ _ _ _ _ _
    | some alts =>
      show (match (if (alts.any fun x => argsHas (Sum.inr x) args) = true
                   then some alts else none : Option (List String)) with
            | some al => altPath name form up args al
            | none => templPath name decl args form up uc).Nodup
      by_cases hz : (alts.any (fun x => argsHas (Sum.inr x) args)) = true
      · rw [if_pos hz]
        exact altPath_nodup _ _ _ _ _
      · rw [if_neg hz]
        exact templPath_nodup _ _ _ _ _ _

theorem strLookup_mem {α : Type} (k : String) (t : List (String × α)) (v : α)
    (h : strLookup k t = some v) : (k, v) ∈ t := by
  unfold strLookup at h
  cases hf : t.find? (fun p => decide (p.1 = k)) with
  | none => rw [hf] at h; cases h
  | some p =>
    rw [hf] at h
    have hmem := List.mem_of_find?_eq_some hf
    have hp := List.find?_some hf
    have hk : p.1 = k := of_decide_eq_true hp
    have hv : p.2 = v := by
      simpa using h
    have : p = (k, v) := by
      cases p with
      | mk a b =>
        simp only at hk hv
        rw [hk, hv]
    rw [← this]
    exact hmem

/-- C4 as stated: every result list returned by the public operations is
duplicate-free. -/
def ClaimC4 : Prop :=
  (∀ (fuel : Nat) (env : Env) (name : String) (args : Args)
      (form comp poss clitic : String) (force_n : Bool) (l : List Str),
    inflect_nominal fuel env name args form comp poss clitic force_n = some l →
      l.Nodup) ∧
  (∀ (fuel : Nat) (env : Env) (name : String) (args : Args)
      (vform comp case poss clitic : String) (l : List Str),
    inflect_verbal fuel env name args vform comp case poss clitic = some l →
      l.Nodup) ∧
  (∀ (fuel : Nat) (env : Env) (args : Args)
      (form : String × String × String × String × String) (force_n : Bool) (l : List Str),
    inflect fuel env args form force_n = some l → l.Nodup)

/-- The tiny table used by the C4 counterexample: one paradigm whose
nominative templates produce `talo` and `talot`. -/
def c4Env : Env :=
  ⟨[("fi-decl-valo", ⟨none, false, [], none, [("", ["1".toList, "1t".toList])]⟩)],
   [], [], [], [""], [""], [""], [""], ["kOs"]⟩

/-- C4 counterexample: the `kOs` clitic maps both `talo` (final vowel) and
`talot` (dropped trailing `t`) to `taloks`, so `inflect_nominal` returns
`taloks` twice. -/
theorem c4_counterexample : ¬ ClaimC4 := by
  intro h
  exact absurd
    (h.1 1 c4Env "fi-decl-valo" [(Sum.inr "1", "talo".toList)] "" "" "" "kOs" false
      ["talokos".toList, "taloks".toList, "talotkos".toList, "taloks".toList]
      (by decide))
    (by decide)

/-- C4 amended: `inflect_using`'s own dispatch (template, exception and
alternate-name paths) never returns duplicates — for any table without
compound `split` declarations its result list is duplicate-free; the
duplicates enter later, through clitic application (see the
counterexample), compound combination, or secondary re-inflection. -/
theorem c4_amended_inflect_using_nodup :
    ∀ (fuel : Nat) (env : Env) (decls : List (String × DeclEntry)) (name : String)
      (args : Args) (form : String) (up uc : Bool) (l : List Str),
      (∀ e ∈ decls, (Prod.snd e).split = none) →
      inflect_using fuel env decls name args form up uc = some l → l.Nodup := by
  intro fuel env decls name args form up uc l hsplit h
  match fuel with
  | 0 => cases h
  | fuel + 1 =>
    simp only [inflect_using] at h
    cases hd : strLookup ((strLookup name env.declNameMap).getD name) decls with
    | none =>
      simp only [hd] at h
      cases h
      exact List.nodup_nil
    | some decl =>
      simp only [hd] at h
      have hds : decl.split = none :=
        hsplit ((strLookup name env.declNameMap).getD name, decl) (strLookup_mem _ _ _ hd)
      simp only [hds] at h
      split at h
      · cases h
      · rename_i ds heq
        cases h
        exact dispatchCore_nodup _ _ _ _ _ _

/-- Witness for the amended C4 at a concrete table and argument set. -/
theorem c4_amended_inflect_using_nodup_witness :
    (["talo".toList, "talot".toList] : List Str).Nodup :=
  c4_amended_inflect_using_nodup 1 c4Env c4Env.nounDecls "fi-decl-valo"
    [(Sum.inr "1", "talo".toList)] "" false true ["talo".toList, "talot".toList]
    (by decide) (by decide)

/-! ## Claim C9: routing of the single entry point -/

/-- C9: `inflect` routes an empty verb form to the nominal facade with the
tuple's case, and a non-empty verb form to the verbal facade, where the
effective verb form is unchanged (the empty-form default to the first
infinitive is reachable only by calling `inflect_verbal` directly). -/
theorem c9_entry_routing :
    ∀ (fuel : Nat) (env : Env) (args : Args) (vform comp case poss clitic : String)
      (force_n : Bool) (nameStr : Str),
      argsGet? (Sum.inr "template_name") args = some nameStr →
      nameStr.asString ∈ conjDeclNames env →
      vform ∈ env.verbForms → comp ∈ env.compForms → case ∈ env.caseForms →
      poss ∈ env.possForms → (clitic ∈ env.cliticForms ∨ clitic = "__dummy__") →
      (vform = "" →
        inflect fuel env args (vform, comp, case, poss, clitic) force_n =
          inflect_nominal fuel env nameStr.asString args case comp poss clitic force_n) ∧
      (vform ≠ "" →
        inflect fuel env args (vform, comp, case, poss, clitic) force_n =
          inflect_verbal fuel env nameStr.asString args vform comp case poss clitic ∧
        effVForm vform = vform) ∧
      effVForm "" = "inf1" := by
  intro fuel env args vform comp case poss clitic force_n nameStr h1 h2 h3 h4 h5 h6 h7
  have hcl : ¬ (clitic ∉ env.cliticForms ∧ clitic ≠ "__dummy__") := by
    rcases h7 with h | h
    · intro hc; exact hc.1 h
    · intro hc; exact hc.2 h
  have hred : inflect fuel env args (vform, comp, case, poss, clitic) force_n =
      if vform ≠ "" then
        inflect_verbal fuel env nameStr.asString args vform comp case poss clitic
      else inflect_nominal fuel env nameStr.asString args case comp poss clitic force_n := by
    simp only [inflect, h1]
    rw [if_neg (not_not_intro h2)]
    rw [if_neg (not_not_intro h3)]
    rw [if_neg (not_not_intro h4)]
    rw [if_neg (not_not_intro h5)]
    rw [if_neg (not_not_intro h6)]
    rw [if_neg hcl]
  refine ⟨?_, ?_, rfl⟩
  · intro hv
    rw [hred, if_neg (by simpa using hv)]
  · intro hv
    refine ⟨?_, by simp [effVForm, hv]⟩
    rw [hred, if_pos hv]

/-- The table for the C9 witness. -/
def c9Env : Env :=
  ⟨[("d", ⟨none, false, [], none, []⟩)], [], [], [], [""], [""], [""], [""], [""]⟩

/-- Witness for C9 at a concrete table and arguments (empty verb form
routes to the nominal facade). -/
theorem c9_entry_routing_witness :
    inflect 1 c9Env [(Sum.inr "template_name", "d".toList)] ("", "", "", "", "") false =
      inflect_nominal 1 c9Env ("d".toList).asString
        [(Sum.inr "template_name", "d".toList)] "" "" "" "" false :=
  (c9_entry_routing 1 c9Env [(Sum.inr "template_name", "d".toList)] "" "" "" "" "" false
    "d".toList (by decide) (by decide) (by decide) (by decide) (by decide) (by decide)
    (by decide)).1 rfl

/-! ## Claim C5: the comparative/superlative/hkO derivation pipeline -/

/-- The secondary-paradigm selection claim C5 describes: like the code's
`compSecondary`, but stripping the degree suffix for `hkO` as well. -/
def claimC5Secondary (comp : String) (nm : String) (x : Str) : Option (String × Str) :=
  if comp = "comp" then
    if "mpi".toList.isSuffixOf x then some ("fi-decl-vanhempi", x.dropLast.dropLast.dropLast)
    else none
  else if comp = "sup" then
    if "in".toList.isSuffixOf x then some ("fi-decl-sisin", x.dropLast.dropLast)
    else none
  else if comp = "hkO" then
    if "hko".toList.isSuffixOf x ∨ "hkö".toList.isSuffixOf x then
      some ("fi-decl-valo", x.dropLast.dropLast.dropLast)
    else none
  else some (nm, x)

/-- The comparison-loop iteration claim C5 predicts (strips `hkO` too). -/
def claimC5Step (fuel : Nat) (env : Env) (comp form : String) (usePoss useClitic : Bool)
    (st : String × Args × List Str) (x : Str) : Option (String × Args × List Str) :=
  match claimC5Secondary comp st.1 x with
  | none => none
  | some (nm2, x2) =>
    let args2 : Args := [(Sum.inr "1", x2), (Sum.inr "5", word_to_aae x2)]
    match inflect_using fuel env env.nounDecls nm2 args2 form usePoss useClitic with
    | none => none
    | some ret => some (nm2, args2, st.2.2 ++ ret)

/-- C5 as stated: under a comparison code `comp`/`sup`/`hkO` (with the
guard assertions satisfied, an adjective argument set with no number
restrictions, and a non-empty requested case), `inflect_nominal` equals
the pipeline that inflects via the comparison form, strips the expected
degree suffix (for all three variants), re-inflects under the fixed
secondary paradigm with a harmony-derived slot 5, then applies the
requested possessive and clitic. -/
def ClaimC5 : Prop :=
  ∀ (fuel : Nat) (env : Env) (name : String) (args : Args)
    (form comp poss clitic : String),
    (comp = "comp" ∨ comp = "sup" ∨ comp = "hkO") →
    ¬ ((strLookup name env.nounDecls).isNone ∧ (strLookup name env.declNameMap).isNone) →
    form ∈ env.caseForms → comp ∈ env.compForms → poss ∈ env.possForms →
    (clitic ∈ env.cliticForms ∨ clitic = "__dummy__") →
    argsHas (Sum.inr "n") args = false →
    argsGet? (Sum.inr "nopl") args = none →
    argsGet? (Sum.inr "nosg") args = none →
    argsGet? (Sum.inr "pos") args = some "adj".toList →
    form ≠ "" →
    inflect_nominal fuel env name args form comp poss clitic false =
      (match inflect_using fuel env env.nounDecls name args comp false false with
       | none => none
       | some results1 =>
         match results1.foldlM
             (claimC5Step fuel env comp form (poss ≠ "") (clitic ≠ "")) (name, args, []) with
         | none => none
         | some st =>
           match add_possessive env.possSuffixes st.2.2 form poss with
           | none => none
           | some results2 => add_clitic results2 clitic.toList)

/-- The table for the C5 counterexample: `fi-decl-valo` with a `hkO`
template producing `valohko` and a case template reproducing the stem. -/
def c5Env : Env :=
  ⟨[("fi-decl-valo",
     ⟨some 5, false, [], none, [("x", ["1234".toList]), ("hkO", ["14hkO".toList])]⟩)],
   [], [], [], ["x"], [""], ["hkO"], [""], [""]⟩

/-- The argument set for the C5 counterexample. -/
def c5Args : Args :=
  [(Sum.inr "1", "val".toList), (Sum.inr "2", []), (Sum.inr "3", []),
   (Sum.inr "4", "o".toList), (Sum.inr "5", "a".toList),
   (Sum.inr "pos", "adj".toList)]

/-- C5 counterexample: for `hkO` the code re-inflects the full
intermediate `valohko` (yielding `valohko`), while the claim's stripped
pipeline yields `valo`. -/
theorem c5_counterexample : ¬ ClaimC5 := by
  intro h
  have h2 := h 2 c5Env "fi-decl-valo" c5Args "x" "hkO" "" "" (by decide) (by decide)
    (by decide) (by decide) (by decide) (by decide) (by decide) (by decide) (by decide)
    (by decide) (by decide)
  exact absurd h2 (by decide)

/-- C5 amended: the code strips `mpi` (three characters) for `comp` and
`in` (two characters) for `sup`, but for `hkO` only asserts the
`hko`/`hkö` suffix and re-inflects the unstripped stem; the secondary
paradigms and the harmony-derived slot 5, and the possessive/clitic
application after the pipeline, are as the claim states. -/
theorem c5_amended_comparison_pipeline :
    (∀ (nm : String) (x : Str), compSecondary "comp" nm x =
      if "mpi".toList.isSuffixOf x then
        some ("fi-decl-vanhempi", x.dropLast.dropLast.dropLast)
      else none) ∧
    (∀ (nm : String) (x : Str), compSecondary "sup" nm x =
      if "in".toList.isSuffixOf x then some ("fi-decl-sisin", x.dropLast.dropLast)
      else none) ∧
    (∀ (nm : String) (x : Str), compSecondary "hkO" nm x =
      if "hko".toList.isSuffixOf x ∨ "hkö".toList.isSuffixOf x then
        some ("fi-decl-valo", x)
      else none) ∧
    ∀ (fuel : Nat) (env : Env) (name : String) (args : Args)
      (form comp poss clitic : String),
      (comp = "comp" ∨ comp = "sup" ∨ comp = "hkO") →
      ¬ ((strLookup name env.nounDecls).isNone ∧ (strLookup name env.declNameMap).isNone) →
      form ∈ env.caseForms → comp ∈ env.compForms → poss ∈ env.possForms →
      (clitic ∈ env.cliticForms ∨ clitic = "__dummy__") →
      argsHas (Sum.inr "n") args = false →
      argsGet? (Sum.inr "nopl") args = none →
      argsGet? (Sum.inr "nosg") args = none →
      argsGet? (Sum.inr "pos") args = some "adj".toList →
      form ≠ "" →
      inflect_nominal fuel env name args form comp poss clitic false =
        (match inflect_using fuel env env.nounDecls name args comp false false with
         | none => none
         | some results1 =>
           match results1.foldlM
               (compStep fuel env comp form (poss ≠ "") (clitic ≠ "")) (name, args, []) with
           | none => none
           | some st =>
             match add_possessive env.possSuffixes st.2.2 form poss with
             | none => none
             | some results2 => add_clitic results2 clitic.toList) := by
  refine ⟨fun nm x => rfl, fun nm x => rfl, fun nm x => rfl, ?_⟩
  intro fuel env name args form comp poss clitic hcomp3 hn hcf hcm hpf hclf hN hnopl
    hnosg hpos hform
  have hcl : ¬ (clitic ∉ env.cliticForms ∧ clitic ≠ "__dummy__") := by
    rcases hclf with h | h
    · intro hc; exact hc.1 h
    · intro hc; exact hc.2 h
  have hcne : comp ≠ "" := by
    rcases hcomp3 with h | h | h <;> subst h <;> decide
  have hnman : ¬ (comp = "manner" ∨ comp = "comp-manner" ∨ comp = "sup-manner") := by
    rcases hcomp3 with h | h | h <;> subst h <;> decide
  simp only [inflect_nominal]
  rw [if_neg hn, if_neg (not_not_intro hcf), if_neg (not_not_intro hcm),
    if_neg (not_not_intro hpf), if_neg hcl]
  simp only [hN, hnopl, hnosg, hpos]
  simp only [Bool.false_eq_true, and_false, false_and, if_false, Option.getD_none,
    ne_eq, not_true, eq_self_iff_true, true_or, decide_True, not_false_iff, and_true,
    true_and, if_true]
  rw [if_neg hnman, if_pos hcne]
  cases hIU : Wikt.inflect_using fuel env env.nounDecls name args comp false false
  · rfl
  · rename_i results1
    dsimp only
    cases hFold : List.foldlM (Wikt.compStep fuel env comp form (decide (Not (poss = ""))) (decide (Not (clitic = "")))) (name, args, []) results1
    · rfl
    · rename_i st
      obtain ⟨nm2, args2, res2⟩ := st
      dsimp only
      have hne : (Not (form = "" /\ (Wikt.argsGet? (Sum.inr "e") args2).getD "0".toList = "1".toList)) := fun hc => hform hc.1
      rw [if_neg hne]

/-- Witness for the amended C5 theorem: at the `fi-decl-valo` environment
with form `x`, comparison `hkO` and empty possessive/clitic, the nominal
pipeline follows the amended equation and produces `valohko`. -/
theorem c5_amended_comparison_pipeline_witness :
    inflect_nominal 2 c5Env "fi-decl-valo" c5Args "x" "hkO" "" "" false =
      some ["valohko".toList] :=
  (c5_amended_comparison_pipeline.2.2.2 2 c5Env "fi-decl-valo" c5Args "x" "hkO" "" ""
    (by decide) (by decide) (by decide) (by decide) (by decide) (by decide)
    (by decide) (by decide) (by decide) (by decide) (by decide)).trans (by decide)

end Wikt
